import Mathlib

/-!
# Tool-calling agent loop: embedding and properties

Shallow embedding of `pkg/internal/agent/agent.go` (with the parts of
`pkg/cmd/agent.go` it depends on) and proofs about it.

Conventions of the embedding.

* A Go `string` is a Lean `String`; a Go `error` is identified with the text
  its `Error()` method returns.
* The external collaborators are explicit:
  - a tool handler `func(args json.RawMessage) (string, error)` may perform
    I/O, so it is a function on a world state `σ`;
  - the user input (`getUserMessage`) is the list of lines it returns with
    `ok = true`, followed by end of input (`ok = false`);
  - the inference service is the list of answers it gives, one per call, in
    call order (a script). Every run sees one such sequence, so quantifying
    over scripts covers every behaviour of the service. A run that needs an
    answer when the script is exhausted ends in `Outcome.stuck`.
* Everything observable the code does is recorded in a trace of `Event`s:
  writes to standard output, calls of the `log` package, calls of
  `getUserMessage`, calls of the inference service (with the history passed),
  calls of tool handlers, and appends to the conversation.
* Library functions of `fmt`, `strconv`, `encoding/json` and `genai` are
  modelled after their Go sources where the text they produce matters
  (`%q`), and taken as parameters (`Lib`) otherwise.
-/

namespace AgenticAI

/-- A Go `error` value, identified with its message. -/
abbrev Error := String

/-! ## `fmt` and `strconv` -/

/-- The digit table `lowerhex` of `strconv`. -/
def lowerhex : List Char := "0123456789abcdef".data

/-- The hexadecimal digit of `r` at bit offset `s`: `lowerhex[r>>s & 0xF]`. -/
def hexAt (r s : Nat) : Char := lowerhex.getD ((r / 2 ^ s) % 16) (Char.ofNat 48)

/-- Go `strconv.IsPrint`: explicit for Latin-1, table lookup above it.
The table of the Unicode printable ranges is the parameter `tbl`. -/
def IsPrint (tbl : Nat → Bool) (r : Char) : Bool :=
  if r.toNat ≤ 0xFF then
    if 0x20 ≤ r.toNat ∧ r.toNat ≤ 0x7E then true
    else if 0xA1 ≤ r.toNat ∧ r.toNat ≤ 0xFF then r.toNat != 0xAD
    else false
  else tbl r.toNat

/-- Go `strconv.appendEscapedRune` for the quote character `"`, with
`ASCIIonly = false` and `graphicOnly = false`. -/
def appendEscapedRune (tbl : Nat → Bool) (r : Char) : List Char :=
  let n := r.toNat
  if n = 34 ∨ n = 92 then [Char.ofNat 92, r]
  else if IsPrint tbl r then [r]
  else if n = 7 then [Char.ofNat 92, Char.ofNat 97]
  else if n = 8 then [Char.ofNat 92, Char.ofNat 98]
  else if n = 12 then [Char.ofNat 92, Char.ofNat 102]
  else if n = 10 then [Char.ofNat 92, Char.ofNat 110]
  else if n = 13 then [Char.ofNat 92, Char.ofNat 114]
  else if n = 9 then [Char.ofNat 92, Char.ofNat 116]
  else if n = 11 then [Char.ofNat 92, Char.ofNat 118]
  else if n < 0x20 ∨ n = 0x7F then
    [Char.ofNat 92, Char.ofNat 120, hexAt n 4, hexAt n 0]
  else if n < 0x10000 then
    [Char.ofNat 92, Char.ofNat 117, hexAt n 12, hexAt n 8, hexAt n 4, hexAt n 0]
  else
    [Char.ofNat 92, Char.ofNat 85, hexAt n 28, hexAt n 24, hexAt n 20, hexAt n 16,
      hexAt n 12, hexAt n 8, hexAt n 4, hexAt n 0]

/-- Go `strconv.Quote`, which is what the verb `%q` prints for a string: the
runes of `s`, each escaped by `appendEscapedRune`, between double quotes.
The string is valid UTF-8, so the branches of the Go code for an invalid byte
or an invalid rune are not reached. -/
def Quote (tbl : Nat → Bool) (s : String) : String :=
  String.mk (Char.ofNat 34 :: (s.data.flatMap (appendEscapedRune tbl) ++ [Char.ofNat 34]))

/-- The text `t` occurs in the text `s`. -/
def Contains (s t : String) : Prop := t.data <:+: s.data

instance (s t : String) : Decidable (Contains s t) := by
  unfold Contains; infer_instance

/-! ## `genai` data types (the fields the agent uses) -/

/-- Go `genai.FunctionCall`; `α` is the type of an argument map
(`map[string]any`). -/
structure FunctionCall (α : Type) where
  Name : String
  Args : α

/-- Go `genai.FunctionResponse`; the response map holds text values only. -/
structure FunctionResponse where
  Name : String
  Response : List (String × String)
deriving DecidableEq

/-- Go `genai.Part`: a struct of optional fields. -/
structure Part (α : Type) where
  Text : String
  Thought : Bool
  FunctionCall : Option (FunctionCall α)
  FunctionResponse : Option FunctionResponse

/-- Go `genai.Content`: one turn of the conversation. -/
structure Content (α : Type) where
  Parts : List (Part α)
  Role : String

/-- Go `genai.Candidate`; `Content` is a pointer that may be nil. -/
structure Candidate (α : Type) where
  Content : Option (Content α)

/-- Go `genai.GenerateContentResponsePromptFeedback`. -/
structure GenerateContentResponsePromptFeedback where
  BlockReason : String

/-- Go `genai.GenerateContentResponse`; `PromptFeedback` may be nil. -/
structure GenerateContentResponse (α : Type) where
  Candidates : List (Candidate α)
  PromptFeedback : Option GenerateContentResponsePromptFeedback

/-- Go `genai.FunctionDeclaration`, without the parameter schema, which the
agent loop only passes on. -/
structure FunctionDeclaration where
  Name : String
  Description : String

/-- Go `genai.Tool`. -/
structure Tool where
  FunctionDeclarations : List FunctionDeclaration

/-- Go `genai.GenerateContentConfig`. -/
structure GenerateContentConfig where
  Tools : List Tool

/-- Go `genai.RoleUser`. -/
def RoleUser : String := "user"

/-- Go `genai.NewPartFromText`. -/
def NewPartFromText {α : Type} (text : String) : Part α :=
  { Text := text, Thought := false, FunctionCall := none, FunctionResponse := none }

/-- Go `genai.NewPartFromFunctionResponse`. -/
def NewPartFromFunctionResponse {α : Type} (name : String)
    (response : List (String × String)) : Part α :=
  { Text := "", Thought := false, FunctionCall := none,
    FunctionResponse := some { Name := name, Response := response } }

/-- Go `genai.NewContentFromParts`: an empty role defaults to `user`. -/
def NewContentFromParts {α : Type} (parts : List (Part α)) (role : String) : Content α :=
  { Parts := parts, Role := if role = "" then RoleUser else role }

/-- The content of the first candidate, `resp.Candidates[0].Content`. It is
`none` exactly when `len(resp.Candidates) == 0 || resp.Candidates[0].Content == nil`. -/
def firstContent {α : Type} (resp : GenerateContentResponse α) : Option (Content α) :=
  match resp.Candidates with
  | [] => none
  | c :: _ => c.Content

/-- The parts of the content of the first candidate, empty when there is none. -/
def firstParts {α : Type} (resp : GenerateContentResponse α) : List (Part α) :=
  match firstContent resp with
  | none => []
  | some content => content.Parts

/-- Go `GenerateContentResponse.Text`: the texts of the non-thought parts of
the first candidate, concatenated. The warnings the library logs about
other kinds of parts are not part of the model. -/
def GenerateContentResponse.Text {α : Type} (resp : GenerateContentResponse α) : String :=
  String.join ((firstParts resp).filterMap
    (fun p => if p.Text ≠ "" ∧ p.Thought = false then some p.Text else none))

/-- Go `GenerateContentResponse.FunctionCalls`: the function calls of the
parts of the first candidate, in order. -/
def GenerateContentResponse.FunctionCalls {α : Type} (resp : GenerateContentResponse α) :
    List (FunctionCall α) :=
  (firstParts resp).filterMap (fun p => p.FunctionCall)

/-! ## Library functions taken as parameters -/

/-- The library functions whose output the agent only passes on. -/
structure Lib (α : Type) where
  /-- The function `json.Marshal` on an argument map. -/
  jsonMarshal : α → Except Error String
  /-- The verb `%v` on an argument map. -/
  fmtArgs : α → String
  /-- The verb `%v` on a prompt feedback. -/
  fmtPromptFeedback : GenerateContentResponsePromptFeedback → String
  /-- The Unicode table behind `strconv.IsPrint`. -/
  isPrintTable : Nat → Bool

/-! ## Events -/

/-- What a run does that can be observed from outside, plus the appends to
the conversation. -/
inductive Event (α : Type) where
  /-- A write of `fmt.Print`, `fmt.Println` or `fmt.Printf`. -/
  | stdout (text : String)
  /-- A call of `log.Printf` or `log.Println` with the formatted message. -/
  | log (msg : String)
  /-- A call of `getUserMessage` and what it returned. -/
  | getUserMessage (line : String) (ok : Bool)
  /-- A call of `Models.GenerateContent` and what it returned. -/
  | generateContent (conversation : List (Content α)) (config : Option GenerateContentConfig)
      (result : Except Error (GenerateContentResponse α))
  /-- A call of the handler of the tool registered under `name`. -/
  | toolFunction (name : String) (args : String)
  /-- An append of a turn to the conversation. -/
  | append (turn : Content α)

/-- A log call that is made only in verbose mode. -/
def vlog {α : Type} (verbose : Bool) (msg : String) : List (Event α) :=
  if verbose then [Event.log msg] else []

/-! ## `tools.ToolDefinition` and the agent -/

/-- Go `tools.ToolDefinition`: the declaration and the handler. The handler
gets the serialized arguments and the world, and returns its result (the
output or the error) and the world it leaves. -/
structure ToolDefinition (σ : Type) where
  Declaration : FunctionDeclaration
  Function : String → σ → Except Error String × σ

/-- A Go `map[string]*ToolDefinition`: an association list with unique keys.
The order of the entries is the order of first insertion (Go leaves the
iteration order of a map unspecified). -/
abbrev ToolMap (σ : Type) := List (String × ToolDefinition σ)

/-- The map assignment `m[k] = v`. -/
def mapSet {σ : Type} (m : ToolMap σ) (k : String) (v : ToolDefinition σ) : ToolMap σ :=
  if (m.lookup k).isSome then m.map (fun p => if p.1 = k then (k, v) else p)
  else m ++ [(k, v)]

/-- The agent. Its fields `client` and `getUserMessage` are the script and
the input lines passed to `Run`. -/
structure Agent (σ : Type) where
  tools : ToolMap σ
  verbose : Bool

/-- Go `NewAgent`: every active tool is stored under its declaration name. -/
def NewAgent {σ : Type} (activeTools : List (ToolDefinition σ)) (verbose : Bool) : Agent σ :=
  { tools := activeTools.foldl (fun toolMap t => mapSet toolMap t.Declaration.Name t) [],
    verbose := verbose }

/-! ## `executeTools` -/

/-- The result of executing function calls: the parts produced, the world
after the handlers ran, and the events. -/
structure Exec (α σ : Type) where
  parts : List (Part α)
  world : σ
  trace : List (Event α)

/-- One iteration of the loop of `executeTools`. -/
def executeCall {α σ : Type} (L : Lib α) (a : Agent σ) (call : FunctionCall α) (w : σ) :
    Exec α σ :=
  let t0 : List (Event α) :=
    vlog a.verbose ("Executing tool: " ++ call.Name ++ " with args: " ++ L.fmtArgs call.Args)
  match a.tools.lookup call.Name with
  | none =>
    { parts := [NewPartFromFunctionResponse call.Name
        [("error", "tool " ++ Quote L.isPrintTable call.Name ++ " not found")]],
      world := w,
      trace := t0 ++ [Event.log
        ("Error: unknown tool " ++ Quote L.isPrintTable call.Name ++ " called by model")] }
  | some tool =>
    match L.jsonMarshal call.Args with
    | Except.error err =>
      { parts := [NewPartFromFunctionResponse call.Name
          [("error", "failed to marshal args: " ++ err)]],
        world := w,
        trace := t0 ++ [Event.log
          ("Error marshalling args for tool " ++ Quote L.isPrintTable call.Name ++ ": " ++ err)] }
    | Except.ok argBytes =>
      match tool.Function argBytes w with
      | (Except.error err, w1) =>
        { parts := [NewPartFromFunctionResponse call.Name
            [("error", "tool execution failed: " ++ err)]],
          world := w1,
          trace := t0 ++ [Event.toolFunction call.Name argBytes, Event.log
            ("Error executing tool " ++ Quote L.isPrintTable call.Name ++ ": " ++ err)] }
      | (Except.ok result, w1) =>
        { parts := [NewPartFromFunctionResponse call.Name [("output", result)]],
          world := w1,
          trace := t0 ++ Event.toolFunction call.Name argBytes ::
            vlog a.verbose
              ("Tool " ++ Quote L.isPrintTable call.Name ++ " result: " ++ result) }

/-- The loop of `executeTools`: the calls are executed in order, each
appending its part to `toolParts`. -/
def executeLoop {α σ : Type} (L : Lib α) (a : Agent σ) :
    List (FunctionCall α) → σ → Exec α σ
  | [], w => { parts := [], world := w, trace := [] }
  | call :: rest, w =>
    let one := executeCall L a call w
    let more := executeLoop L a rest one.world
    { parts := one.parts ++ more.parts, world := more.world, trace := one.trace ++ more.trace }

/-- The result of `executeTools`: the tool turn, the world and the events. -/
structure ToolsResult (α σ : Type) where
  content : Content α
  world : σ
  trace : List (Event α)

/-- Go `Agent.executeTools`. -/
def executeTools {α σ : Type} (L : Lib α) (a : Agent σ) (calls : List (FunctionCall α))
    (w : σ) : ToolsResult α σ :=
  let r := executeLoop L a calls w
  { content := NewContentFromParts r.parts "tool", world := r.world, trace := r.trace }

/-! ## `Run` -/

/-- How a loop of `Run` ended. -/
inductive Outcome where
  /-- The loop was left by `break`; for `Run`: it returned `nil`. -/
  | ended
  /-- The function `Run` returned the error `err`. -/
  | failed (err : Error)
  /-- The script of the inference service is exhausted. -/
  | stuck
deriving DecidableEq

/-- The state when a loop of `Run` ends. -/
structure LoopResult (α σ : Type) where
  outcome : Outcome
  conversation : List (Content α)
  world : σ
  script : List (Except Error (GenerateContentResponse α))
  trace : List (Event α)

/-- Go `Agent.runInference`, given the answer `result` of the service. -/
def runInference {α σ : Type} (a : Agent σ) (conversation : List (Content α))
    (tools : List Tool) (result : Except Error (GenerateContentResponse α)) :
    List (Event α) :=
  vlog a.verbose ("Making API call to Gemini with model: " ++ "gemini-2.5-flash") ++
  [Event.generateContent conversation
    (if tools.length > 0 then some { Tools := tools } else none) result] ++
  vlog a.verbose
    (match result with
     | Except.error err => "API call failed: " ++ err
     | Except.ok _ => "API call successful, response received")

/-- The inner `for` loop of `Run`, one iteration per answer of the script. -/
def innerLoop {α σ : Type} (L : Lib α) (a : Agent σ) (availableTools : List Tool) :
    List (Except Error (GenerateContentResponse α)) → List (Content α) → σ → LoopResult α σ
  | [], conversation, w =>
    { outcome := Outcome.stuck, conversation := conversation, world := w, script := [],
      trace := [] }
  | result :: script, conversation, w =>
    let t1 : List (Event α) :=
      vlog a.verbose
        ("Sending message to Gemini, conversation length: " ++ toString conversation.length) ++
      runInference a conversation availableTools result
    match result with
    | Except.error err =>
      { outcome := Outcome.failed err, conversation := conversation, world := w,
        script := script,
        trace := t1 ++ vlog a.verbose ("Error during inference: " ++ err) }
    | Except.ok resp =>
      match firstContent resp with
      | none =>
        { outcome := Outcome.ended, conversation := conversation, world := w, script := script,
          trace := t1 ++ [Event.stdout "\u001b[93mGemini\u001b[0m: I am unable to answer.\n"] ++
            (match resp.PromptFeedback with
             | none => []
             | some feedback =>
               vlog a.verbose ("Prompt feedback: " ++ L.fmtPromptFeedback feedback) ++
               [Event.stdout ("Blocked for reason: " ++ feedback.BlockReason ++ "\n")]) }
      | some content =>
        let conversation1 := conversation ++ [content]
        let t2 : List (Event α) :=
          t1 ++ [Event.append content] ++
          (if resp.Text ≠ "" then
            [Event.stdout ("\u001b[93mGemini\u001b[0m: " ++ resp.Text ++ "\n")]
           else [])
        let funcCalls := resp.FunctionCalls
        if funcCalls.length = 0 then
          { outcome := Outcome.ended, conversation := conversation1, world := w,
            script := script, trace := t2 }
        else
          let toolResponseContent := executeTools L a funcCalls w
          let conversation2 := conversation1 ++ [toolResponseContent.content]
          let rest := innerLoop L a availableTools script conversation2 toolResponseContent.world
          { rest with
            trace := t2 ++
              vlog a.verbose ("Received " ++ toString funcCalls.length ++ " tool calls.") ++
              toolResponseContent.trace ++ [Event.append toolResponseContent.content] ++
              vlog a.verbose "Sending tool responses back to Gemini.\n" ++ rest.trace }

/-- The prompt printed before each read of the user input. -/
def prompt : String := "\u001b[94mYou\u001b[0m: "

/-- The outer `for` loop of `Run`, one iteration per call of `getUserMessage`:
`inputs` are the lines it returns before the end of input. -/
def outerLoop {α σ : Type} (L : Lib α) (a : Agent σ) (availableTools : List Tool) :
    List String → List (Except Error (GenerateContentResponse α)) → List (Content α) → σ →
    LoopResult α σ
  | [], script, conversation, w =>
    { outcome := Outcome.ended, conversation := conversation, world := w, script := script,
      trace := [Event.stdout prompt, Event.getUserMessage "" false] ++
        vlog a.verbose "User input ended, breaking from chat loop\n" }
  | userInput :: inputs, script, conversation, w =>
    let t0 : List (Event α) := [Event.stdout prompt, Event.getUserMessage userInput true]
    if userInput = "" then
      let rest := outerLoop L a availableTools inputs script conversation w
      { rest with trace := t0 ++ vlog a.verbose "Skipping empty message\n" ++ rest.trace }
    else
      let userMessage : List (Part α) := [NewPartFromText userInput]
      let turn := NewContentFromParts userMessage RoleUser
      let t1 : List (Event α) :=
        t0 ++ vlog a.verbose ("User input received: " ++ Quote L.isPrintTable userInput) ++
        [Event.append turn]
      let inner := innerLoop L a availableTools script (conversation ++ [turn]) w
      match inner.outcome with
      | Outcome.ended =>
        let rest :=
          outerLoop L a availableTools inputs inner.script inner.conversation inner.world
        { rest with trace := t1 ++ inner.trace ++ rest.trace }
      | _ => { inner with trace := t1 ++ inner.trace }

/-- The tools passed to every inference call of a run: one `Tool` holding the
declarations of the tool map, or none when the map is empty. -/
def availableTools {σ : Type} (a : Agent σ) : List Tool :=
  let functionDeclarations := a.tools.map (fun p => p.2.Declaration)
  if functionDeclarations.length > 0 then [{ FunctionDeclarations := functionDeclarations }]
  else []

/-- Go `Agent.Run`: the conversation starts empty. -/
def Run {α σ : Type} (L : Lib α) (a : Agent σ) (inputs : List String)
    (script : List (Except Error (GenerateContentResponse α))) (w : σ) : LoopResult α σ :=
  let r := outerLoop L a (availableTools a) inputs script [] w
  { r with
    trace := vlog a.verbose "Starting chat session\n" ++
      [Event.stdout "Chat with Gemini (use 'ctrl-c' to quit)\n"] ++ r.trace ++
      (match r.outcome with
       | Outcome.ended => vlog a.verbose "Chat session ended\n"
       | _ => []) }

/-! ## `run` of `pkg/cmd/agent.go` -/

/-- The selection of the active tools in `run`: every name is looked up in
`tools.AvailableTools` (a parameter here); an unknown name is fatal. -/
def selectTools {σ : Type} (AvailableTools : String → Option (ToolDefinition σ)) :
    List String → Except String (List (ToolDefinition σ))
  | [] => Except.ok []
  | name :: rest =>
    match AvailableTools name with
    | none => Except.error ("Unknown tool: " ++ name)
    | some tool =>
      match selectTools AvailableTools rest with
      | Except.error e => Except.error e
      | Except.ok activeTools => Except.ok (tool :: activeTools)

/-- Go `run`, after the client is created: select the tools, build the agent,
run it. The result is the fatal message of `log.Fatalf` or the run. -/
def run {α σ : Type} (L : Lib α) (AvailableTools : String → Option (ToolDefinition σ))
    (verbose : Bool) (toolNames : List String) (inputs : List String)
    (script : List (Except Error (GenerateContentResponse α))) (w : σ) :
    Except String (LoopResult α σ) :=
  match selectTools AvailableTools toolNames with
  | Except.error e => Except.error e
  | Except.ok activeTools => Except.ok (Run L (NewAgent activeTools verbose) inputs script w)

/-- Where `run` directs the output of the `log` package. -/
inductive Stream where
  | Stdout
  | Stderr
deriving DecidableEq

/-- Go `run`: `log.SetOutput(os.Stderr)` in verbose mode, `log.SetOutput(os.Stdout)`
with no flags and no prefix otherwise. -/
def logOutput (verbose : Bool) : Stream :=
  if verbose then Stream.Stderr else Stream.Stdout

/-- What the `log` package writes for a message when it has no flags and no
prefix: the message, with a newline added unless it ends in one. -/
def logText (msg : String) : String :=
  if msg.data.getLast? = some (Char.ofNat 10) then msg else msg ++ "\n"

/-- The text that the events of a trace write to standard output, for the
log configuration that `run` sets up from the flag `verbose`. -/
def stdoutText {α : Type} (verbose : Bool) : List (Event α) → String
  | [] => ""
  | Event.stdout text :: es => text ++ stdoutText verbose es
  | Event.log msg :: es =>
    (if logOutput verbose = Stream.Stdout then logText msg else "") ++ stdoutText verbose es
  | _ :: es => stdoutText verbose es

/-! ## Observations on traces -/

/-- The handler calls of a trace, in order: tool name and serialized arguments. -/
def handlerCalls {α : Type} : List (Event α) → List (String × String)
  | [] => []
  | Event.toolFunction name args :: es => (name, args) :: handlerCalls es
  | _ :: es => handlerCalls es

/-- The histories passed to the inference calls of a trace, in order. -/
def histories {α : Type} : List (Event α) → List (List (Content α))
  | [] => []
  | Event.generateContent conversation _ _ :: es => conversation :: histories es
  | _ :: es => histories es

/-- The turns appended to the conversation in a trace, in order. -/
def appended {α : Type} : List (Event α) → List (Content α)
  | [] => []
  | Event.append turn :: es => turn :: appended es
  | _ :: es => appended es

/-- The messages passed to the `log` package in a trace, in order. -/
def logMessages {α : Type} : List (Event α) → List String
  | [] => []
  | Event.log msg :: es => msg :: logMessages es
  | _ :: es => logMessages es

/-- An event that only writes text: a print or a log call. -/
def Event.isOutput {α : Type} : Event α → Bool
  | Event.stdout _ => true
  | Event.log _ => true
  | _ => false

/-- The part is a failure result: a function response with an `error` entry
and no `output` entry. -/
def Part.isFailure {α : Type} (p : Part α) : Bool :=
  match p.FunctionResponse with
  | none => false
  | some fr => (fr.Response.lookup "error").isSome && (fr.Response.lookup "output").isNone

/-- The turns that tool round trips add to the conversation: for each
response the content of its first candidate, then the tool turn of
`executeTools` on its function calls, run in the world left by the round
trips before it. Returned with the world after the last of them. -/
def roundTripTurns {α σ : Type} (L : Lib α) (a : Agent σ) :
    List (GenerateContentResponse α) → σ → List (Content α) × σ
  | [], w => ([], w)
  | resp :: more, w =>
    let exec := executeTools L a resp.FunctionCalls w
    let next := roundTripTurns L a more exec.world
    ((firstContent resp).toList ++ exec.content :: next.1, next.2)

/-- An inference call that returned an error. -/
def Event.isFailedCall {α : Type} : Event α → Bool
  | Event.generateContent _ _ (Except.error _) => true
  | _ => false

/-- A run stops at a failing inference call: either no inference call of the
trace failed and the outcome is not a failure, or the trace has exactly one
failed call, the outcome is its error, and only prints and log calls follow
it. -/
def StopsAtFailure {α : Type} (out : Outcome) (t : List (Event α)) : Prop :=
  ((∀ e ∈ t, e.isFailedCall = false) ∧ ∀ err, out ≠ Outcome.failed err) ∨
  ∃ pre conv cfg err post,
    t = pre ++ Event.generateContent conv cfg (Except.error err) :: post ∧
    (∀ e ∈ pre, e.isFailedCall = false) ∧ (∀ e ∈ post, e.isOutput = true) ∧
    out = Outcome.failed err

/-- The turn appended for a line of user input. -/
def userTurn {α : Type} (userInput : String) : Content α :=
  NewContentFromParts [NewPartFromText userInput] RoleUser

/-- The first history is a strict prefix of the second. -/
def StrictPrefix {α : Type} (h1 h2 : List (Content α)) : Prop :=
  h1 <+: h2 ∧ h1.length < h2.length

/-- The first turn, if there is one, has role `user`. -/
def StartsWithUser {α : Type} (conversation : List (Content α)) : Prop :=
  ∀ turn, conversation.head? = some turn → turn.Role = "user"

/-! ## The registry as the specification words it -/

/-- Registration as the specification words it: `register(definition)` fails
with a duplicate-tool error if the name already exists. -/
def registerSpec {σ : Type} (registry : ToolMap σ) (definition : ToolDefinition σ) :
    Except String (ToolMap σ) :=
  if (registry.lookup definition.Declaration.Name).isSome then
    Except.error ("DuplicateToolError: " ++ definition.Declaration.Name)
  else Except.ok (registry ++ [(definition.Declaration.Name, definition)])

/-- The registry built by registering the definitions one after the other,
as the specification words it. -/
def buildRegistrySpec {σ : Type} : List (ToolDefinition σ) → ToolMap σ → Except String (ToolMap σ)
  | [], registry => Except.ok registry
  | definition :: rest, registry =>
    match registerSpec registry definition with
    | Except.error e => Except.error e
    | Except.ok registry1 => buildRegistrySpec rest registry1

/-- What the `log` package writes for a list of messages when it has no
flags and no prefix. -/
def logLines : List String → String
  | [] => ""
  | msg :: msgs => logText msg ++ logLines msgs

/-- A name without a double quote, a backslash or an unprintable character:
the verb `%q` leaves every character of it as it is. -/
def PlainName (tbl : Nat → Bool) (s : String) : Prop :=
  ∀ ch ∈ s.data, ch.toNat ≠ 34 ∧ ch.toNat ≠ 92 ∧ IsPrint tbl ch = true

/-! ## Concrete instances -/

/-- Library parameters for the instances: an argument map is given by its
JSON text, and the text `NaN` stands for a value that does not serialize. -/
def exampleLib : Lib String :=
  { jsonMarshal := fun s =>
      if s = "NaN" then Except.error "json: unsupported value: NaN" else Except.ok s,
    fmtArgs := fun s => s,
    fmtPromptFeedback := fun f => f.BlockReason,
    isPrintTable := fun _ => false }

/-- A tool that returns its arguments; the world counts the handler calls. -/
def echoTool : ToolDefinition Nat :=
  { Declaration := { Name := "echo", Description := "returns its arguments" },
    Function := fun args w => (Except.ok args, w + 1) }

/-- A tool whose handler always fails. -/
def failTool : ToolDefinition Nat :=
  { Declaration := { Name := "fail", Description := "always fails" },
    Function := fun _ w => (Except.error "boom", w + 1) }

/-- A second definition under the name `echo`. -/
def echoTool2 : ToolDefinition Nat :=
  { Declaration := { Name := "echo", Description := "second definition" },
    Function := fun _ w => (Except.ok "two", w + 1) }

/-- An agent with the tools `echo` and `fail`, verbose logging disabled. -/
def exampleAgent : Agent Nat := NewAgent [echoTool, failTool] false

/-- A model turn that answers with the text `t`. -/
def answerResponse (t : String) : GenerateContentResponse String :=
  { Candidates := [{ Content := some { Parts := [NewPartFromText t], Role := "model" } }],
    PromptFeedback := none }

/-- A model turn that calls the tool `name` on `args`. -/
def callResponse (name args : String) : GenerateContentResponse String :=
  { Candidates := [{ Content := some { Parts := [{ Text := "", Thought := false, FunctionCall := some { Name := name, Args := args }, FunctionResponse := none }], Role := "model" } }],
    PromptFeedback := none }

/-- A blocked response: no candidates. -/
def blockedResponse : GenerateContentResponse String :=
  { Candidates := [], PromptFeedback := some { BlockReason := "SAFETY" } }

/-- A catalogue of available tools for the instances. -/
def exampleCatalogue (name : String) : Option (ToolDefinition Nat) :=
  if name = "echo" then some echoTool else if name = "fail" then some failTool else none

/-! # Properties -/

/-! ## Lemmas on traces and texts -/

section Lemmas
variable {α σ : Type}

theorem handlerCalls_append (xs ys : List (Event α)) :
    handlerCalls (xs ++ ys) = handlerCalls xs ++ handlerCalls ys := by
  induction xs with
  | nil => rfl
  | cons e es ih => cases e <;> simp [handlerCalls, ih]

theorem histories_append (xs ys : List (Event α)) :
    histories (xs ++ ys) = histories xs ++ histories ys := by
  induction xs with
  | nil => rfl
  | cons e es ih => cases e <;> simp [histories, ih]

theorem appended_append (xs ys : List (Event α)) :
    appended (xs ++ ys) = appended xs ++ appended ys := by
  induction xs with
  | nil => rfl
  | cons e es ih => cases e <;> simp [appended, ih]

theorem logMessages_append (xs ys : List (Event α)) :
    logMessages (xs ++ ys) = logMessages xs ++ logMessages ys := by
  induction xs with
  | nil => rfl
  | cons e es ih => cases e <;> simp [logMessages, ih]

theorem stdoutText_append (v : Bool) (xs ys : List (Event α)) :
    stdoutText v (xs ++ ys) = stdoutText v xs ++ stdoutText v ys := by
  induction xs with
  | nil => simp [stdoutText]
  | cons e es ih => cases e <;> simp [stdoutText, ih, String.append_assoc]

theorem handlerCalls_vlog (v : Bool) (m : String) :
    handlerCalls (vlog v m : List (Event α)) = [] := by
  cases v <;> rfl

theorem histories_vlog (v : Bool) (m : String) :
    histories (vlog v m : List (Event α)) = [] := by
  cases v <;> rfl

theorem appended_vlog (v : Bool) (m : String) :
    appended (vlog v m : List (Event α)) = [] := by
  cases v <;> rfl

theorem getElem_middle {β : Type} (xs zs : List β) (y : β) :
    (xs ++ y :: zs)[xs.length]? = some y := by
  induction xs with
  | nil => simp
  | cons x xs ih => simpa using ih

theorem contains_middle (x t y : String) : Contains (x ++ t ++ y) t := by
  refine ⟨x.data, y.data, ?_⟩
  simp [String.data_append]

/-- One iteration of `executeTools` produces one function response, named
after the call. -/
theorem executeCall_parts (L : Lib α) (a : Agent σ) (c : FunctionCall α) (w : σ) :
    ∃ response, (executeCall L a c w).parts = [NewPartFromFunctionResponse c.Name response] := by
  unfold executeCall
  split
  · exact ⟨_, rfl⟩
  · split
    · exact ⟨_, rfl⟩
    · split
      · exact ⟨_, rfl⟩
      · exact ⟨_, rfl⟩

theorem executeLoop_append (L : Lib α) (a : Agent σ) (xs ys : List (FunctionCall α)) (w : σ) :
    (executeLoop L a (xs ++ ys) w).parts =
        (executeLoop L a xs w).parts ++ (executeLoop L a ys (executeLoop L a xs w).world).parts ∧
    (executeLoop L a (xs ++ ys) w).world =
        (executeLoop L a ys (executeLoop L a xs w).world).world ∧
    (executeLoop L a (xs ++ ys) w).trace =
        (executeLoop L a xs w).trace ++ (executeLoop L a ys (executeLoop L a xs w).world).trace := by
  induction xs generalizing w with
  | nil => simp [executeLoop]
  | cons x xs ih =>
    obtain ⟨h1, h2, h3⟩ := ih (executeCall L a x w).world
    simp [executeLoop, h1, h2, h3]

theorem executeLoop_parts_length (L : Lib α) (a : Agent σ) (calls : List (FunctionCall α))
    (w : σ) : (executeLoop L a calls w).parts.length = calls.length := by
  induction calls generalizing w with
  | nil => rfl
  | cons c cs ih =>
    obtain ⟨r, hr⟩ := executeCall_parts L a c w
    simp [executeLoop, hr, ih]

end Lemmas

/-! ## Properties of `executeTools` -/

/-- C1: for every agent and every batch of function calls, `executeTools`
returns one turn with role `tool` that holds exactly as many parts as there
are calls, and the part at each position is a function response carrying the
name of the call at that position, whatever the calls fail or succeed. -/
theorem executeTools_one_response_per_call {α σ : Type} (L : Lib α) (a : Agent σ)
    (calls : List (FunctionCall α)) (w : σ) :
    (executeTools L a calls w).content.Role = "tool" ∧
    (executeTools L a calls w).content.Parts.length = calls.length ∧
    (executeTools L a calls w).content.Parts.map
        (fun p => p.FunctionResponse.map (fun fr => fr.Name)) =
      calls.map (fun c => some c.Name) := by
  refine ⟨by simp [executeTools, NewContentFromParts], ?_, ?_⟩
  · simpa [executeTools, NewContentFromParts] using executeLoop_parts_length L a calls w
  · simp only [executeTools, NewContentFromParts]
    induction calls generalizing w with
    | nil => rfl
    | cons c cs ih =>
      obtain ⟨r, hr⟩ := executeCall_parts L a c w
      simp [executeLoop, hr, ih, NewPartFromFunctionResponse]


section Lemmas2
variable {α σ : Type}


theorem appendEscapedRune_plain (tbl : Nat → Bool) (ch : Char)
    (h : ch.toNat ≠ 34 ∧ ch.toNat ≠ 92 ∧ IsPrint tbl ch = true) :
    appendEscapedRune tbl ch = [ch] := by
  simp [appendEscapedRune, h.1, h.2.1, h.2.2]

theorem flatMap_plain (tbl : Nat → Bool) (cs : List Char)
    (h : ∀ ch ∈ cs, ch.toNat ≠ 34 ∧ ch.toNat ≠ 92 ∧ IsPrint tbl ch = true) :
    cs.flatMap (appendEscapedRune tbl) = cs := by
  induction cs with
  | nil => rfl
  | cons c cs ih =>
    have hc := appendEscapedRune_plain tbl c (h c (List.mem_cons_self _ _))
    have hcs := ih (fun ch hch => h ch (List.mem_cons_of_mem _ hch))
    simp [List.flatMap_cons, hc, hcs]

theorem Quote_contains_plain (tbl : Nat → Bool) (s : String) (h : PlainName tbl s) :
    Contains (Quote tbl s) s := by
  refine ⟨[Char.ofNat 34], [Char.ofNat 34], ?_⟩
  simp [Quote, flatMap_plain tbl s.data h]

theorem Contains.trans {s t u : String} (h1 : Contains s t) (h2 : Contains t u) :
    Contains s u :=
  List.IsInfix.trans h2 h1

theorem executeCall_unknown (L : Lib α) (a : Agent σ) (c : FunctionCall α) (w : σ)
    (h : a.tools.lookup c.Name = none) :
    (executeCall L a c w).parts = [NewPartFromFunctionResponse c.Name
        [("error", "tool " ++ Quote L.isPrintTable c.Name ++ " not found")]] ∧
    (executeCall L a c w).world = w ∧
    handlerCalls (executeCall L a c w).trace = [] := by
  simp [executeCall, h, handlerCalls_append, handlerCalls_vlog, handlerCalls]

end Lemmas2

/-- C4 (as amended): a call whose name is not a key of the tool map gets, at
its position, a failure result (an `error` entry, no `output` entry) whose
message contains the name as the verb `%q` prints it, and the name itself when
it has no double quote, backslash or unprintable character; no handler is
invoked for it, and the other results, the handler calls and the final world
are those of the batch without that call. -/
theorem executeTools_unknown_tool {α σ : Type} (L : Lib α) (a : Agent σ)
    (pre post : List (FunctionCall α)) (c : FunctionCall α) (w : σ)
    (h : a.tools.lookup c.Name = none) :
    (executeTools L a (pre ++ c :: post) w).content.Parts =
      (executeTools L a (pre ++ post) w).content.Parts.take pre.length ++
      NewPartFromFunctionResponse c.Name
        [("error", "tool " ++ Quote L.isPrintTable c.Name ++ " not found")] ::
      (executeTools L a (pre ++ post) w).content.Parts.drop pre.length ∧
    (NewPartFromFunctionResponse c.Name
        [("error", "tool " ++ Quote L.isPrintTable c.Name ++ " not found")] :
        Part α).isFailure = true ∧
    Contains ("tool " ++ Quote L.isPrintTable c.Name ++ " not found")
      (Quote L.isPrintTable c.Name) ∧
    (PlainName L.isPrintTable c.Name →
      Contains ("tool " ++ Quote L.isPrintTable c.Name ++ " not found") c.Name) ∧
    (∀ w1 : σ, handlerCalls (executeCall L a c w1).trace = []) ∧
    handlerCalls (executeTools L a (pre ++ c :: post) w).trace =
      handlerCalls (executeTools L a (pre ++ post) w).trace ∧
    (executeTools L a (pre ++ c :: post) w).world = (executeTools L a (pre ++ post) w).world := by
  have hpre := executeLoop_parts_length L a pre w
  obtain ⟨p1, w1, t1⟩ := executeLoop_append L a pre (c :: post) w
  obtain ⟨p2, w2, t2⟩ := executeLoop_append L a pre post w
  obtain ⟨cp, cw, ct⟩ := executeCall_unknown L a c (executeLoop L a pre w).world h
  refine ⟨?_, ?_, contains_middle _ _ _, ?_, ?_, ?_, ?_⟩
  · simp [executeTools, NewContentFromParts, p1, p2, executeLoop, cp, cw, ← hpre]
  · simp [Part.isFailure, NewPartFromFunctionResponse, List.lookup]
  · intro hp
    exact Contains.trans (contains_middle _ _ _) (Quote_contains_plain _ _ hp)
  · intro w1
    exact (executeCall_unknown L a c w1 h).2.2
  · simp [executeTools, t1, t2, executeLoop, handlerCalls_append, ct, cw]
  · simp [executeTools, w1, w2, executeLoop, cw]


/-- C4 at a concrete batch: the unknown tool `nope` between two calls. -/
theorem executeTools_unknown_tool_witness :
    exampleAgent.tools.lookup "nope" = none ∧
    handlerCalls (executeTools exampleLib exampleAgent
      ([{ Name := "echo", Args := "1" }] ++ { Name := "nope", Args := "2" } ::
        [{ Name := "fail", Args := "3" }]) 0).trace =
    handlerCalls (executeTools exampleLib exampleAgent
      ([{ Name := "echo", Args := "1" }] ++ [{ Name := "fail", Args := "3" }]) 0).trace :=
  ⟨rfl,
   (executeTools_unknown_tool exampleLib exampleAgent [{ Name := "echo", Args := "1" }]
      [{ Name := "fail", Args := "3" }] { Name := "nope", Args := "2" } 0 rfl).2.2.2.2.2.1⟩

/-- C4 as stated fails: for the unknown tool name `a"b` the failure message
is `tool "a\"b" not found`, in which the name does not occur. -/
theorem unknown_tool_message_escapes_name :
    (executeTools exampleLib exampleAgent [{ Name := "a\"b", Args := "" }] 0).content.Parts.map
        (fun p => p.FunctionResponse) =
      [some { Name := "a\"b", Response := [("error", "tool \"a\\\"b\" not found")] }] ∧
    ¬ Contains "tool \"a\\\"b\" not found" "a\"b" := by
  decide

section Lemmas3
variable {α σ : Type}

theorem logText_ne_empty (msg : String) : logText msg ≠ "" := by
  unfold logText
  split
  · rename_i h
    intro h0
    rw [h0] at h
    simp at h
  · intro h0
    have := congrArg String.data h0
    simp [String.data_append] at this

theorem logLines_append (xs ys : List String) :
    logLines (xs ++ ys) = logLines xs ++ logLines ys := by
  induction xs with
  | nil => simp [logLines]
  | cons x xs ih => simp [logLines, ih, String.append_assoc]

theorem logLines_eq_empty (msgs : List String) (h : logLines msgs = "") : msgs = [] := by
  cases msgs with
  | nil => rfl
  | cons m ms =>
    exfalso
    have h1 := congrArg String.data h
    simp only [logLines, String.data_append] at h1
    have h2 : (logText m).data = [] := (List.append_eq_nil.mp h1).1
    exact logText_ne_empty m (String.ext h2)

theorem prefix_append_right (p x y : String) (h : p.data <+: x.data) :
    p.data <+: (x ++ y).data := by
  rw [String.data_append]
  exact h.trans (List.prefix_append _ _)

/-- With verbose logging disabled, one iteration of `executeTools` either
succeeds and writes nothing, or fails and makes one log call. -/
theorem executeCall_logged (L : Lib α) (a : Agent σ) (c : FunctionCall α) (w : σ)
    (hv : a.verbose = false) :
    ∃ p, (executeCall L a c w).parts = [p] ∧
      ((p.isFailure = false ∧ logMessages (executeCall L a c w).trace = [] ∧
          stdoutText false (executeCall L a c w).trace = "") ∨
       (p.isFailure = true ∧ ∃ m, logMessages (executeCall L a c w).trace = [m] ∧
          stdoutText false (executeCall L a c w).trace = logText m ∧
          "Error".data <+: m.data ∧
          ∃ fr, p.FunctionResponse = some fr ∧ Contains m (Quote L.isPrintTable fr.Name))) := by
  unfold executeCall
  split
  · refine ⟨_, rfl, Or.inr ⟨by simp [Part.isFailure, NewPartFromFunctionResponse, List.lookup],
      "Error: unknown tool " ++ Quote L.isPrintTable c.Name ++ " called by model",
      by simp [hv, vlog, logMessages], by simp [hv, vlog, stdoutText, logOutput], ?_,
      _, rfl, contains_middle _ _ _⟩⟩
    exact prefix_append_right _ _ _ (prefix_append_right _ _ _ (by decide))
  · split
    · rename_i err _
      refine ⟨_, rfl, Or.inr ⟨by simp [Part.isFailure, NewPartFromFunctionResponse, List.lookup],
        "Error marshalling args for tool " ++ Quote L.isPrintTable c.Name ++ ": " ++ err,
        by simp [hv, vlog, logMessages], by simp [hv, vlog, stdoutText, logOutput], ?_,
        _, rfl, ?_⟩⟩
      · exact prefix_append_right _ _ _ (prefix_append_right _ _ _
          (prefix_append_right _ _ _ (by decide)))
      · simpa [String.append_assoc] using
          contains_middle "Error marshalling args for tool " (Quote L.isPrintTable c.Name)
            (": " ++ err)
    · split
      · rename_i err _ _
        refine ⟨_, rfl, Or.inr ⟨by simp [Part.isFailure, NewPartFromFunctionResponse,
            List.lookup],
          "Error executing tool " ++ Quote L.isPrintTable c.Name ++ ": " ++ err,
          by simp [hv, vlog, logMessages], by simp [hv, vlog, stdoutText, logOutput], ?_,
          _, rfl, ?_⟩⟩
        · exact prefix_append_right _ _ _ (prefix_append_right _ _ _
            (prefix_append_right _ _ _ (by decide)))
        · simpa [String.append_assoc] using
            contains_middle "Error executing tool " (Quote L.isPrintTable c.Name)
              (": " ++ err)
      · exact ⟨_, rfl, Or.inl ⟨by simp [Part.isFailure, NewPartFromFunctionResponse,
          List.lookup], by simp [hv, vlog, logMessages],
          by simp [hv, vlog, stdoutText]⟩⟩

end Lemmas3

/-- C9 as stated fails: with verbose logging disabled, executing one call of
an unknown tool writes a line to standard output. -/
theorem unknown_tool_written_to_stdout :
    exampleAgent.verbose = false ∧
    stdoutText exampleAgent.verbose
        (executeTools exampleLib exampleAgent [{ Name := "nope", Args := "" }] 0).trace =
      "Error: unknown tool \"nope\" called by model\n" := by
  decide

/-- With verbose logging disabled, the batch writes the output of its log
calls, one per failed result, and nothing when no result is a failure. -/
theorem executeLoop_logged {α σ : Type} (L : Lib α) (a : Agent σ)
    (calls : List (FunctionCall α)) (w : σ) (hv : a.verbose = false) :
    stdoutText a.verbose (executeTools L a calls w).trace =
      logLines (logMessages (executeTools L a calls w).trace) ∧
    List.Forall₂
      (fun msg p => "Error".data <+: msg.data ∧
        ∃ fr, p.FunctionResponse = some fr ∧ Contains msg (Quote L.isPrintTable fr.Name))
      (logMessages (executeTools L a calls w).trace)
      ((executeTools L a calls w).content.Parts.filter Part.isFailure) ∧
    (stdoutText a.verbose (executeTools L a calls w).trace = "" ↔
      ∀ p ∈ (executeTools L a calls w).content.Parts, p.isFailure = false) := by
  have key : stdoutText false (executeLoop L a calls w).trace =
        logLines (logMessages (executeLoop L a calls w).trace) ∧
      List.Forall₂
        (fun msg p => "Error".data <+: msg.data ∧
          ∃ fr, p.FunctionResponse = some fr ∧ Contains msg (Quote L.isPrintTable fr.Name))
        (logMessages (executeLoop L a calls w).trace)
        ((executeLoop L a calls w).parts.filter Part.isFailure) := by
    induction calls generalizing w with
    | nil => simp [executeLoop, stdoutText, logMessages, logLines]
    | cons c cs ih =>
      obtain ⟨ih1, ih2⟩ := ih (executeCall L a c w).world
      obtain ⟨p, hp, hcase⟩ := executeCall_logged L a c w hv
      rcases hcase with ⟨hf, hl, hs⟩ | ⟨hf, m, hl, hs, hpre, hfr⟩
      · simp [executeLoop, stdoutText_append, logMessages_append, hp, hf, hl, hs, ih1, ih2,
          logLines]
      · refine ⟨?_, ?_⟩
        · simp [executeLoop, stdoutText_append, logMessages_append, hl, hs, ih1, logLines]
        · simp only [executeLoop, logMessages_append, hl, hp, List.singleton_append,
            List.filter_cons, hf, if_true]
          exact List.Forall₂.cons ⟨hpre, hfr⟩ ih2
  have hparts : (executeTools L a calls w).content.Parts = (executeLoop L a calls w).parts := rfl
  have htrace : (executeTools L a calls w).trace = (executeLoop L a calls w).trace := rfl
  rw [hv, hparts, htrace]
  refine ⟨key.1, key.2, ?_⟩
  constructor
  · intro h0
    have hnil := logLines_eq_empty _ (key.1 ▸ h0)
    have hlen := key.2.length_eq
    rw [hnil] at hlen
    have hfil : (executeLoop L a calls w).parts.filter Part.isFailure = [] :=
      List.length_eq_zero.mp hlen.symm
    intro p hp
    by_contra hne
    have : p ∈ (executeLoop L a calls w).parts.filter Part.isFailure :=
      List.mem_filter.mpr ⟨hp, by simpa using hne⟩
    rw [hfil] at this
    exact absurd this (List.not_mem_nil _)
  · intro hall
    have hfil : (executeLoop L a calls w).parts.filter Part.isFailure = [] := by
      rw [List.filter_eq_nil_iff]
      intro p hp
      simp [hall p hp]
    have hlen := key.2.length_eq
    rw [hfil] at hlen
    have hnil : logMessages (executeLoop L a calls w).trace = [] :=
      List.length_eq_zero.mp hlen
    rw [key.1, hnil]
    rfl


/-- With verbose logging disabled, what one iteration of `executeTools`
produces and logs in each of its four branches. -/
theorem executeCall_outcomes {α σ : Type} (L : Lib α) (a : Agent σ) (c : FunctionCall α)
    (w : σ) (hv : a.verbose = false) :
    (a.tools.lookup c.Name = none →
      (executeCall L a c w).parts = [NewPartFromFunctionResponse c.Name
        [("error", "tool " ++ Quote L.isPrintTable c.Name ++ " not found")]] ∧
      (executeCall L a c w).world = w ∧
      logMessages (executeCall L a c w).trace =
        ["Error: unknown tool " ++ Quote L.isPrintTable c.Name ++ " called by model"]) ∧
    (∀ tool err, a.tools.lookup c.Name = some tool → L.jsonMarshal c.Args = Except.error err →
      (executeCall L a c w).parts = [NewPartFromFunctionResponse c.Name
        [("error", "failed to marshal args: " ++ err)]] ∧
      (executeCall L a c w).world = w ∧
      logMessages (executeCall L a c w).trace =
        ["Error marshalling args for tool " ++ Quote L.isPrintTable c.Name ++ ": " ++ err]) ∧
    (∀ tool argBytes err w2, a.tools.lookup c.Name = some tool →
      L.jsonMarshal c.Args = Except.ok argBytes →
      tool.Function argBytes w = (Except.error err, w2) →
      (executeCall L a c w).parts = [NewPartFromFunctionResponse c.Name
        [("error", "tool execution failed: " ++ err)]] ∧
      (executeCall L a c w).world = w2 ∧
      logMessages (executeCall L a c w).trace =
        ["Error executing tool " ++ Quote L.isPrintTable c.Name ++ ": " ++ err]) ∧
    (∀ tool argBytes result w2, a.tools.lookup c.Name = some tool →
      L.jsonMarshal c.Args = Except.ok argBytes →
      tool.Function argBytes w = (Except.ok result, w2) →
      (executeCall L a c w).parts = [NewPartFromFunctionResponse c.Name
        [("output", result)]] ∧
      (executeCall L a c w).world = w2 ∧
      logMessages (executeCall L a c w).trace = []) := by
  refine ⟨fun h => ?_, fun tool err h hm => ?_, fun tool argBytes err w2 h hm hf => ?_,
    fun tool argBytes result w2 h hm hf => ?_⟩
  · simp [executeCall, h, hv, vlog, logMessages]
  · simp [executeCall, h, hm, hv, vlog, logMessages]
  · simp [executeCall, h, hm, hf, hv, vlog, logMessages]
  · simp [executeCall, h, hm, hf, hv, vlog, logMessages]

/-- The call at position `pre.length` of a batch: its log calls stand between
those of the calls before it and those of the calls after it, and its part
stands at its position. -/
theorem executeLoop_at {α σ : Type} (L : Lib α) (a : Agent σ)
    (pre post : List (FunctionCall α)) (c : FunctionCall α) (w : σ) (p : Part α) (w2 : σ)
    (msgs : List String)
    (hp : (executeCall L a c (executeLoop L a pre w).world).parts = [p])
    (hw : (executeCall L a c (executeLoop L a pre w).world).world = w2)
    (hl : logMessages (executeCall L a c (executeLoop L a pre w).world).trace = msgs) :
    logMessages (executeTools L a (pre ++ c :: post) w).trace =
      logMessages (executeLoop L a pre w).trace ++
        (msgs ++ logMessages (executeLoop L a post w2).trace) ∧
    (executeTools L a (pre ++ c :: post) w).content.Parts[pre.length]? = some p := by
  have hpre := executeLoop_parts_length L a pre w
  obtain ⟨p1, -, t1⟩ := executeLoop_append L a pre (c :: post) w
  constructor
  · simp [executeTools, t1, executeLoop, logMessages_append, hl, hw]
  · have hparts : (executeTools L a (pre ++ c :: post) w).content.Parts =
        (executeLoop L a pre w).parts ++ p :: (executeLoop L a post w2).parts := by
      simp [executeTools, NewContentFromParts, p1, executeLoop, hp, hw]
    rw [hparts, ← hpre]
    exact getElem_middle _ _ _

/-- C9 (as amended): with verbose logging disabled, the text `executeTools`
writes to standard output is the output of its log calls, and a request of
the batch makes exactly one log call when it names an unknown tool, when its
arguments fail to serialize or when its handler returns an error, and none
when it succeeds: at every position of the batch the log calls of the
request stand between those of the requests before and after it, with the
message `Error: unknown tool NAME called by model`, `Error marshalling args
for tool NAME: ERR` or `Error executing tool NAME: ERR` (the name as `%q`
prints it), and the result at that position carries the `error` entry. So
there is one log call per failed result, in order, whose message starts with
`Error` and names the tool, and nothing is written exactly when no request
fails. -/
theorem executeTools_failures_logged {α σ : Type} (L : Lib α) (a : Agent σ)
    (calls : List (FunctionCall α)) (w : σ) (hv : a.verbose = false) :
    stdoutText a.verbose (executeTools L a calls w).trace =
      logLines (logMessages (executeTools L a calls w).trace) ∧
    List.Forall₂
      (fun msg p => "Error".data <+: msg.data ∧
        ∃ fr, p.FunctionResponse = some fr ∧ Contains msg (Quote L.isPrintTable fr.Name))
      (logMessages (executeTools L a calls w).trace)
      ((executeTools L a calls w).content.Parts.filter Part.isFailure) ∧
    (stdoutText a.verbose (executeTools L a calls w).trace = "" ↔
      ∀ p ∈ (executeTools L a calls w).content.Parts, p.isFailure = false) ∧
    ∀ (pre post : List (FunctionCall α)) (c : FunctionCall α), calls = pre ++ c :: post →
      (a.tools.lookup c.Name = none →
        logMessages (executeTools L a calls w).trace =
          logMessages (executeLoop L a pre w).trace ++
            (["Error: unknown tool " ++ Quote L.isPrintTable c.Name ++ " called by model"] ++
              logMessages (executeLoop L a post (executeLoop L a pre w).world).trace) ∧
        (executeTools L a calls w).content.Parts[pre.length]? =
          some (NewPartFromFunctionResponse c.Name
            [("error", "tool " ++ Quote L.isPrintTable c.Name ++ " not found")])) ∧
      (∀ tool err, a.tools.lookup c.Name = some tool →
        L.jsonMarshal c.Args = Except.error err →
        logMessages (executeTools L a calls w).trace =
          logMessages (executeLoop L a pre w).trace ++
            (["Error marshalling args for tool " ++ Quote L.isPrintTable c.Name ++ ": " ++
                err] ++
              logMessages (executeLoop L a post (executeLoop L a pre w).world).trace) ∧
        (executeTools L a calls w).content.Parts[pre.length]? =
          some (NewPartFromFunctionResponse c.Name
            [("error", "failed to marshal args: " ++ err)])) ∧
      (∀ tool argBytes err w2, a.tools.lookup c.Name = some tool →
        L.jsonMarshal c.Args = Except.ok argBytes →
        tool.Function argBytes (executeLoop L a pre w).world = (Except.error err, w2) →
        logMessages (executeTools L a calls w).trace =
          logMessages (executeLoop L a pre w).trace ++
            (["Error executing tool " ++ Quote L.isPrintTable c.Name ++ ": " ++ err] ++
              logMessages (executeLoop L a post w2).trace) ∧
        (executeTools L a calls w).content.Parts[pre.length]? =
          some (NewPartFromFunctionResponse c.Name
            [("error", "tool execution failed: " ++ err)])) ∧
      (∀ tool argBytes result w2, a.tools.lookup c.Name = some tool →
        L.jsonMarshal c.Args = Except.ok argBytes →
        tool.Function argBytes (executeLoop L a pre w).world = (Except.ok result, w2) →
        logMessages (executeTools L a calls w).trace =
          logMessages (executeLoop L a pre w).trace ++
            ([] ++ logMessages (executeLoop L a post w2).trace) ∧
        (executeTools L a calls w).content.Parts[pre.length]? =
          some (NewPartFromFunctionResponse c.Name [("output", result)])) := by
  obtain ⟨k1, k2, k3⟩ := executeLoop_logged L a calls w hv
  refine ⟨k1, k2, k3, ?_⟩
  intro pre post c hcalls
  subst hcalls
  obtain ⟨o1, o2, o3, o4⟩ := executeCall_outcomes L a c (executeLoop L a pre w).world hv
  refine ⟨fun h => ?_, fun tool err h hm => ?_, fun tool argBytes err w2 h hm hf => ?_,
    fun tool argBytes result w2 h hm hf => ?_⟩
  · obtain ⟨q1, q2, q3⟩ := o1 h
    exact executeLoop_at L a pre post c w _ _ _ q1 q2 q3
  · obtain ⟨q1, q2, q3⟩ := o2 tool err h hm
    exact executeLoop_at L a pre post c w _ _ _ q1 q2 q3
  · obtain ⟨q1, q2, q3⟩ := o3 tool argBytes err w2 h hm hf
    exact executeLoop_at L a pre post c w _ _ _ q1 q2 q3
  · obtain ⟨q1, q2, q3⟩ := o4 tool argBytes result w2 h hm hf
    exact executeLoop_at L a pre post c w _ _ _ q1 q2 q3

/-- C9 at a concrete batch: a successful call, then a call whose arguments do
not serialize, with verbose logging disabled. -/
theorem executeTools_failures_logged_witness :
    exampleAgent.verbose = false ∧
    exampleLib.jsonMarshal "NaN" = Except.error "json: unsupported value: NaN" ∧
    logMessages (executeTools exampleLib exampleAgent
        [{ Name := "echo", Args := "1" }, { Name := "echo", Args := "NaN" }] 0).trace =
      logMessages (executeLoop exampleLib exampleAgent [{ Name := "echo", Args := "1" }] 0).trace ++
        (["Error marshalling args for tool " ++ Quote exampleLib.isPrintTable "echo" ++ ": " ++
            "json: unsupported value: NaN"] ++
          logMessages (executeLoop exampleLib exampleAgent []
            (executeLoop exampleLib exampleAgent [{ Name := "echo", Args := "1" }] 0).world).trace) :=
  ⟨rfl, rfl,
   (((executeTools_failures_logged exampleLib exampleAgent
      [{ Name := "echo", Args := "1" }, { Name := "echo", Args := "NaN" }] 0 rfl).2.2.2
      [{ Name := "echo", Args := "1" }] [] { Name := "echo", Args := "NaN" } rfl).2.1
      echoTool "json: unsupported value: NaN" rfl rfl).1⟩


section Lemmas4
variable {σ : Type}

theorem lookup_map_replace (m : ToolMap σ) (k k1 : String) (v : ToolDefinition σ) :
    (m.map (fun p => if p.1 = k then (k, v) else p)).lookup k1 =
      if k1 = k then (if (m.lookup k).isSome then some v else none) else m.lookup k1 := by
  induction m with
  | nil => simp
  | cons p m ih =>
    obtain ⟨pk, pv⟩ := p
    by_cases hpk : pk = k
    · subst hpk
      by_cases hk : k1 = pk
      · subst hk
        simp [List.lookup_cons]
      · have : (k1 == pk) = false := by simpa using hk
        simp [List.lookup_cons, this, ih, hk]
    · by_cases hk : k1 = k
      · subst hk
        have h1 : (k1 == pk) = false := by
          simp only [beq_eq_false_iff_ne]
          exact fun h => hpk h.symm
        simp only [List.map_cons, hpk, if_false, List.lookup_cons, h1, ih, if_true]
      · by_cases hk1 : k1 = pk
        · subst hk1
          simp [List.lookup_cons, hpk]
        · have h1 : (k1 == pk) = false := by simpa using hk1
          have h2 : (k == pk) = false := by
            simp only [beq_eq_false_iff_ne]
            exact fun h => hpk h.symm
          simp [List.lookup_cons, hpk, h1, h2, ih, hk]

theorem lookup_mapSet (m : ToolMap σ) (k k1 : String) (v : ToolDefinition σ) :
    (mapSet m k v).lookup k1 = if k1 = k then some v else m.lookup k1 := by
  unfold mapSet
  split
  · rename_i h
    rw [lookup_map_replace, if_pos h]
  · rename_i h
    rw [List.lookup_append]
    by_cases hk : k1 = k
    · subst hk
      have : m.lookup k1 = none := by
        cases hl : m.lookup k1 with
        | none => rfl
        | some x => simp [hl] at h
      simp [this]
    · have hb : (k1 == k) = false := by simpa using hk
      simp [hk, List.lookup_cons, hb]

theorem keys_mapSet (m : ToolMap σ) (k : String) (v : ToolDefinition σ) :
    (mapSet m k v).map Prod.fst =
      if k ∈ m.map Prod.fst then m.map Prod.fst else m.map Prod.fst ++ [k] := by
  have hmem : (m.lookup k).isSome = true ↔ k ∈ m.map Prod.fst := by
    rw [List.lookup_isSome_iff]
    constructor
    · rintro ⟨p, hp, hk⟩
      have hk1 : k = p.1 := by simpa using hk
      exact List.mem_map.mpr ⟨p, hp, hk1.symm⟩
    · intro h
      obtain ⟨p, hp, hk⟩ := List.mem_map.mp h
      exact ⟨p, hp, by simp [hk]⟩
  unfold mapSet
  by_cases h : (m.lookup k).isSome = true
  · rw [if_pos h, if_pos (hmem.mp h)]
    rw [List.map_map]
    apply List.map_congr_left
    intro p _
    by_cases hp : p.1 = k <;> simp [hp]
  · rw [if_neg h, if_neg (fun hk => h (hmem.mpr hk))]
    simp

theorem keys_mapSet_nodup (m : ToolMap σ) (k : String) (v : ToolDefinition σ)
    (h : (m.map Prod.fst).Nodup) : ((mapSet m k v).map Prod.fst).Nodup := by
  rw [keys_mapSet]
  split
  · exact h
  · rename_i hk
    rw [List.nodup_append]
    exact ⟨h, List.nodup_singleton k, by simpa using hk⟩

/-- The tool map after the loop of `NewAgent`, from any map it starts with. -/
theorem foldl_mapSet (ts : List (ToolDefinition σ)) (acc : ToolMap σ)
    (h : (acc.map Prod.fst).Nodup) :
    ((ts.foldl (fun toolMap t => mapSet toolMap t.Declaration.Name t) acc).map Prod.fst).Nodup ∧
    ∀ name, (ts.foldl (fun toolMap t => mapSet toolMap t.Declaration.Name t) acc).lookup name =
      (ts.reverse.find? (fun t => t.Declaration.Name == name)).or (acc.lookup name) := by
  induction ts generalizing acc with
  | nil => exact ⟨h, fun name => by simp⟩
  | cons t ts ih =>
    obtain ⟨h1, h2⟩ := ih (mapSet acc t.Declaration.Name t) (keys_mapSet_nodup _ _ _ h)
    refine ⟨h1, fun name => ?_⟩
    rw [List.foldl_cons, h2 name, lookup_mapSet, List.reverse_cons, List.find?_append]
    by_cases hn : name = t.Declaration.Name
    · subst hn
      cases ts.reverse.find? (fun x => x.Declaration.Name == t.Declaration.Name) <;>
        simp [List.find?_cons]
    · have hb : (t.Declaration.Name == name) = false := by
        simp only [beq_eq_false_iff_ne]
        exact fun h => hn h.symm
      cases ts.reverse.find? (fun x => x.Declaration.Name == name) <;>
        simp [List.find?_cons, hn, hb]

/-- On names that are pairwise different the loop of `NewAgent` and the
registration of the specification build the same map. -/
theorem foldl_mapSet_eq_spec (ts : List (ToolDefinition σ)) (acc : ToolMap σ)
    (h : (acc.map Prod.fst ++ ts.map (fun t => t.Declaration.Name)).Nodup) :
    buildRegistrySpec ts acc =
      Except.ok (ts.foldl (fun toolMap t => mapSet toolMap t.Declaration.Name t) acc) := by
  induction ts generalizing acc with
  | nil => rfl
  | cons t ts ih =>
    have hnot : t.Declaration.Name ∉ acc.map Prod.fst := by
      intro hmem
      rw [List.nodup_append] at h
      exact h.2.2 hmem (List.mem_cons_self _ _)
    have hlook : (acc.lookup t.Declaration.Name).isSome = false := by
      cases hl : acc.lookup t.Declaration.Name with
      | none => rfl
      | some x =>
        exfalso
        have : (acc.lookup t.Declaration.Name).isSome = true := by simp [hl]
        rw [List.lookup_isSome_iff] at this
        obtain ⟨p, hp, hk⟩ := this
        have hk1 : t.Declaration.Name = p.1 := by simpa using hk
        exact hnot (List.mem_map.mpr ⟨p, hp, hk1.symm⟩)
    have hset : mapSet acc t.Declaration.Name t = acc ++ [(t.Declaration.Name, t)] := by
      simp [mapSet, hlook]
    have hnext : ((acc ++ [(t.Declaration.Name, t)]).map Prod.fst ++
        ts.map (fun t => t.Declaration.Name)).Nodup := by
      simpa [List.append_assoc] using h
    simp only [buildRegistrySpec, registerSpec, hlook, List.foldl_cons, hset]
    exact ih _ hnext

end Lemmas4

/-- C8 as stated fails: for two definitions with the name `echo`, `NewAgent`
produces a registry (the name mapped to the second definition), and `run`
with the tool named twice starts the run, where the registration of the
specification reports a duplicate-tool error. -/
theorem NewAgent_accepts_duplicate_names :
    ¬ ([echoTool, echoTool2].map (fun t => t.Declaration.Name)).Nodup ∧
    (NewAgent [echoTool, echoTool2] false).tools.map
        (fun p => (p.1, p.2.Declaration.Description)) = [("echo", "second definition")] ∧
    (run exampleLib exampleCatalogue false ["echo", "echo"] [] [] 0).toBool = true ∧
    buildRegistrySpec [echoTool, echoTool2] [] = Except.error "DuplicateToolError: echo" := by
  refine ⟨by decide, by decide, rfl, rfl⟩

/-- C8 (as amended): `NewAgent` never fails. For every list of active tools
it builds a registry with unique keys that maps a name to the last definition
of the list declared under that name (none if there is none); when the names
of the list are pairwise different this is the registry that the registration
of the specification builds. -/
theorem NewAgent_registry {σ : Type} (activeTools : List (ToolDefinition σ)) (verbose : Bool) :
    ((NewAgent activeTools verbose).tools.map Prod.fst).Nodup ∧
    (∀ name, (NewAgent activeTools verbose).tools.lookup name =
      activeTools.reverse.find? (fun t => t.Declaration.Name == name)) ∧
    ((activeTools.map (fun t => t.Declaration.Name)).Nodup →
      buildRegistrySpec activeTools [] = Except.ok (NewAgent activeTools verbose).tools) := by
  obtain ⟨h1, h2⟩ := foldl_mapSet activeTools [] (by simp)
  refine ⟨h1, fun name => ?_, fun hnd => ?_⟩
  · have := h2 name
    simpa [NewAgent] using this
  · exact foldl_mapSet_eq_spec activeTools [] (by simpa using hnd)

/-- C8 at a concrete list: the tools `echo` and `fail`. -/
theorem NewAgent_registry_witness :
    ([echoTool, failTool].map (fun t => t.Declaration.Name)).Nodup ∧
    buildRegistrySpec [echoTool, failTool] [] =
      Except.ok (NewAgent [echoTool, failTool] false).tools :=
  ⟨by decide, (NewAgent_registry [echoTool, failTool] false).2.2 (by decide)⟩


section Lemmas5
variable {α σ : Type}

/-- One iteration of `executeTools` only logs and calls handlers. -/
theorem executeCall_trace (L : Lib α) (a : Agent σ) (c : FunctionCall α) (w : σ) :
    histories (executeCall L a c w).trace = [] ∧ appended (executeCall L a c w).trace = [] ∧
    ∀ e ∈ (executeCall L a c w).trace, e.isFailedCall = false := by
  unfold executeCall
  cases a.verbose <;> (repeat' split) <;>
    simp [vlog, histories, appended, Event.isFailedCall]

theorem executeLoop_trace (L : Lib α) (a : Agent σ) (calls : List (FunctionCall α)) (w : σ) :
    histories (executeLoop L a calls w).trace = [] ∧
    appended (executeLoop L a calls w).trace = [] ∧
    ∀ e ∈ (executeLoop L a calls w).trace, e.isFailedCall = false := by
  induction calls generalizing w with
  | nil => simp [executeLoop, histories, appended]
  | cons c cs ih =>
    obtain ⟨h1, h2, h3⟩ := executeCall_trace L a c w
    obtain ⟨i1, i2, i3⟩ := ih (executeCall L a c w).world
    refine ⟨by simp [executeLoop, histories_append, h1, i1],
      by simp [executeLoop, appended_append, h2, i2], ?_⟩
    intro e he
    simp only [executeLoop, List.mem_append] at he
    rcases he with he | he
    · exact h3 e he
    · exact i3 e he

theorem executeTools_trace (L : Lib α) (a : Agent σ) (calls : List (FunctionCall α)) (w : σ) :
    histories (executeTools L a calls w).trace = [] ∧
    appended (executeTools L a calls w).trace = [] ∧
    ∀ e ∈ (executeTools L a calls w).trace, e.isFailedCall = false :=
  executeLoop_trace L a calls w

theorem histories_runInference (a : Agent σ) (conv : List (Content α)) (tools : List Tool)
    (result : Except Error (GenerateContentResponse α)) :
    histories (runInference a conv tools result) = [conv] ∧
    appended (runInference a conv tools result) = [] ∧
    handlerCalls (runInference a conv tools result) = [] := by
  cases h : a.verbose <;>
    simp [runInference, vlog, histories, appended, handlerCalls, h]

end Lemmas5

section Lemmas6
variable {α σ : Type}

theorem isFailedCall_vlog (v : Bool) (m : String) :
    ∀ e ∈ (vlog v m : List (Event α)), e.isFailedCall = false := by
  cases v <;> simp [vlog, Event.isFailedCall]

theorem isOutput_vlog (v : Bool) (m : String) :
    ∀ e ∈ (vlog v m : List (Event α)), e.isOutput = true := by
  cases v <;> simp [vlog, Event.isOutput]

theorem isFailedCall_runInference (a : Agent σ) (conv : List (Content α)) (tools : List Tool)
    (resp : GenerateContentResponse α) :
    ∀ e ∈ runInference a conv tools (Except.ok resp), e.isFailedCall = false := by
  cases hv : a.verbose <;> simp [runInference, vlog, hv, Event.isFailedCall]

/-- The iteration of the inner loop on an answer with content and function
calls: the events of the iteration, then the rest of the loop on the
conversation extended by the model turn and the tool turn. -/
theorem innerLoop_calls (L : Lib α) (a : Agent σ) (tools : List Tool)
    (resp : GenerateContentResponse α) (content : Content α)
    (rest : List (Except Error (GenerateContentResponse α)))
    (conv : List (Content α)) (w : σ)
    (hc : firstContent resp = some content) (hf : resp.FunctionCalls ≠ []) :
    (innerLoop L a tools (Except.ok resp :: rest) conv w).outcome =
      (innerLoop L a tools rest
        (conv ++ [content] ++ [(executeTools L a resp.FunctionCalls w).content])
        (executeTools L a resp.FunctionCalls w).world).outcome ∧
    (innerLoop L a tools (Except.ok resp :: rest) conv w).conversation =
      (innerLoop L a tools rest
        (conv ++ [content] ++ [(executeTools L a resp.FunctionCalls w).content])
        (executeTools L a resp.FunctionCalls w).world).conversation ∧
    (innerLoop L a tools (Except.ok resp :: rest) conv w).script =
      (innerLoop L a tools rest
        (conv ++ [content] ++ [(executeTools L a resp.FunctionCalls w).content])
        (executeTools L a resp.FunctionCalls w).world).script ∧
    (innerLoop L a tools (Except.ok resp :: rest) conv w).world =
      (innerLoop L a tools rest
        (conv ++ [content] ++ [(executeTools L a resp.FunctionCalls w).content])
        (executeTools L a resp.FunctionCalls w).world).world ∧
    ∃ t, (innerLoop L a tools (Except.ok resp :: rest) conv w).trace =
        t ++ (innerLoop L a tools rest
          (conv ++ [content] ++ [(executeTools L a resp.FunctionCalls w).content])
          (executeTools L a resp.FunctionCalls w).world).trace ∧
      histories t = [conv] ∧
      appended t = [content, (executeTools L a resp.FunctionCalls w).content] ∧
      ∀ e ∈ t, e.isFailedCall = false := by
  have hlen : ¬ resp.FunctionCalls.length = 0 := fun h => hf (List.length_eq_zero.mp h)
  obtain ⟨g1, g2, -⟩ := histories_runInference a conv tools (Except.ok resp)
  obtain ⟨x1, x2, x3⟩ := executeTools_trace L a resp.FunctionCalls w
  refine ⟨by simp [innerLoop, hc, hlen], by simp [innerLoop, hc, hlen],
    by simp [innerLoop, hc, hlen], by simp [innerLoop, hc, hlen], ?_⟩
  refine ⟨vlog a.verbose
        ("Sending message to Gemini, conversation length: " ++ toString conv.length) ++
      runInference a conv tools (Except.ok resp) ++ [Event.append content] ++
      (if resp.Text ≠ "" then
        [Event.stdout ("\u001b[93mGemini\u001b[0m: " ++ resp.Text ++ "\n")]
       else []) ++
      vlog a.verbose ("Received " ++ toString resp.FunctionCalls.length ++ " tool calls.") ++
      (executeTools L a resp.FunctionCalls w).trace ++
      [Event.append (executeTools L a resp.FunctionCalls w).content] ++
      vlog a.verbose "Sending tool responses back to Gemini.\n", ?_, ?_, ?_, ?_⟩
  · simp [innerLoop, hc, hlen, List.append_assoc]
  · by_cases ht : resp.Text = "" <;>
      simp [histories_append, histories_vlog, g1, x1, histories, ht]
  · by_cases ht : resp.Text = "" <;>
      simp [appended_append, appended_vlog, g2, x2, appended, ht]
  · intro e he
    simp only [List.mem_append, List.mem_singleton] at he
    rcases he with ((((((he | he) | he) | he) | he) | he) | he) | he
    · exact isFailedCall_vlog _ _ e he
    · exact isFailedCall_runInference a conv tools resp e he
    · simp [he, Event.isFailedCall]
    · by_cases ht : resp.Text = "" <;> simp [ht] at he
      simp [he, Event.isFailedCall]
    · exact isFailedCall_vlog _ _ e he
    · exact x3 e he
    · simp [he, Event.isFailedCall]
    · exact isFailedCall_vlog _ _ e he

/-- The iteration of the inner loop on an answer with content and no
function call: the model turn is appended and the loop ends. -/
theorem innerLoop_answer (L : Lib α) (a : Agent σ) (tools : List Tool)
    (resp : GenerateContentResponse α) (content : Content α)
    (rest : List (Except Error (GenerateContentResponse α)))
    (conv : List (Content α)) (w : σ)
    (hc : firstContent resp = some content) (hf : resp.FunctionCalls = []) :
    (innerLoop L a tools (Except.ok resp :: rest) conv w).outcome = Outcome.ended ∧
    (innerLoop L a tools (Except.ok resp :: rest) conv w).conversation = conv ++ [content] ∧
    (innerLoop L a tools (Except.ok resp :: rest) conv w).script = rest ∧
    (innerLoop L a tools (Except.ok resp :: rest) conv w).world = w ∧
    histories (innerLoop L a tools (Except.ok resp :: rest) conv w).trace = [conv] ∧
    appended (innerLoop L a tools (Except.ok resp :: rest) conv w).trace = [content] ∧
    handlerCalls (innerLoop L a tools (Except.ok resp :: rest) conv w).trace = [] ∧
    ∀ e ∈ (innerLoop L a tools (Except.ok resp :: rest) conv w).trace,
      e.isFailedCall = false := by
  obtain ⟨g1, g2, g3⟩ := histories_runInference a conv tools (Except.ok resp)
  refine ⟨by simp [innerLoop, hc, hf], by simp [innerLoop, hc, hf], by simp [innerLoop, hc, hf],
    by simp [innerLoop, hc, hf], ?_, ?_, ?_, ?_⟩
  · by_cases ht : resp.Text = "" <;>
      simp [innerLoop, hc, hf, histories_append, histories_vlog, g1, histories, ht]
  · by_cases ht : resp.Text = "" <;>
      simp [innerLoop, hc, hf, appended_append, appended_vlog, g2, appended, ht]
  · by_cases ht : resp.Text = "" <;>
      simp [innerLoop, hc, hf, handlerCalls_append, handlerCalls_vlog, g3, handlerCalls, ht]
  · intro e he
    simp only [innerLoop, hc, hf, List.length_nil, if_true, List.mem_append,
      List.mem_singleton] at he
    rcases he with ((he | he) | he) | he
    · exact isFailedCall_vlog _ _ e he
    · exact isFailedCall_runInference a conv tools resp e he
    · simp [he, Event.isFailedCall]
    · by_cases ht : resp.Text = "" <;> simp [ht] at he
      simp [he, Event.isFailedCall]

end Lemmas6

/-- C2: when the service answers `k` calls with responses that carry content
and at least one function call and the next call with a response that carries
content and no function call (its text may be empty), the inner loop of `Run`
ends after exactly `k + 1` inference calls, having consumed exactly these
answers, and has appended exactly `2 * k + 1` turns to the conversation it
started with: for each of the `k` responses the model turn and the tool turn
of `executeTools` on its function calls, then the final model turn. -/
theorem innerLoop_round_trips {α σ : Type} (L : Lib α) (a : Agent σ) (tools : List Tool)
    (toolResps : List (GenerateContentResponse α)) (final : GenerateContentResponse α)
    (finalContent : Content α) (rest : List (Except Error (GenerateContentResponse α)))
    (conversation : List (Content α)) (w : σ)
    (h1 : ∀ r ∈ toolResps, (∃ c, firstContent r = some c) ∧ r.FunctionCalls ≠ [])
    (h2 : firstContent final = some finalContent) (h3 : final.FunctionCalls = []) :
    (innerLoop L a tools (toolResps.map Except.ok ++ Except.ok final :: rest)
      conversation w).outcome = Outcome.ended ∧
    (innerLoop L a tools (toolResps.map Except.ok ++ Except.ok final :: rest)
      conversation w).script = rest ∧
    (histories (innerLoop L a tools (toolResps.map Except.ok ++ Except.ok final :: rest)
      conversation w).trace).length = toolResps.length + 1 ∧
    (innerLoop L a tools (toolResps.map Except.ok ++ Except.ok final :: rest)
      conversation w).conversation =
      conversation ++ ((roundTripTurns L a toolResps w).1 ++ [finalContent]) ∧
    appended (innerLoop L a tools (toolResps.map Except.ok ++ Except.ok final :: rest)
      conversation w).trace = (roundTripTurns L a toolResps w).1 ++ [finalContent] ∧
    ((roundTripTurns L a toolResps w).1 ++ [finalContent]).length = 2 * toolResps.length + 1 ∧
    (innerLoop L a tools (toolResps.map Except.ok ++ Except.ok final :: rest)
      conversation w).world = (roundTripTurns L a toolResps w).2 := by
  induction toolResps generalizing conversation w with
  | nil =>
    obtain ⟨a1, a2, a3, a4, a5, a6, -, -⟩ :=
      innerLoop_answer L a tools final finalContent rest conversation w h2 h3
    simp [a1, a2, a3, a4, a5, a6, roundTripTurns]
  | cons r rs ih =>
    obtain ⟨⟨c, hc⟩, hf⟩ := h1 r (List.mem_cons_self _ _)
    obtain ⟨s1, s2, s3, s4, t, s5, s6, s7, -⟩ :=
      innerLoop_calls L a tools r c (rs.map Except.ok ++ Except.ok final :: rest)
        conversation w hc hf
    obtain ⟨i1, i2, i3, i4, i5, i6, i7⟩ :=
      ih (conversation ++ [c] ++ [(executeTools L a r.FunctionCalls w).content])
        (executeTools L a r.FunctionCalls w).world
        (fun x hx => h1 x (List.mem_cons_of_mem _ hx))
    simp only [List.map_cons, List.cons_append]
    refine ⟨s1.trans i1, s3.trans i2, ?_, ?_, ?_, ?_, s4.trans i7⟩
    · rw [s5, histories_append, s6, List.length_append, i3]
      simp only [List.length_cons, List.length_nil]
      omega
    · rw [s2, i4]
      simp [roundTripTurns, hc]
    · rw [s5, appended_append, s7, i5]
      simp [roundTripTurns, hc]
    · simp only [roundTripTurns, hc, Option.toList, List.length_append, List.length_cons,
        List.length_nil] at i6 ⊢
      omega

/-- C2 at a concrete script: one round trip with the tool `echo`, then an
answer with empty text. -/
theorem innerLoop_round_trips_witness :
    (∀ r ∈ [callResponse "echo" "1"], (∃ c, firstContent r = some c) ∧ r.FunctionCalls ≠ []) ∧
    (answerResponse "").FunctionCalls = [] ∧
    (histories (innerLoop exampleLib exampleAgent []
      ([callResponse "echo" "1"].map Except.ok ++ Except.ok (answerResponse "") :: [])
      [NewContentFromParts [NewPartFromText "hi"] RoleUser] 0).trace).length = 1 + 1 :=
  ⟨by simp [callResponse, firstContent, GenerateContentResponse.FunctionCalls, firstParts],
   rfl,
   (innerLoop_round_trips exampleLib exampleAgent [] [callResponse "echo" "1"]
      (answerResponse "") { Parts := [NewPartFromText ""], Role := "model" } []
      [NewContentFromParts [NewPartFromText "hi"] RoleUser] 0
      (by simp [callResponse, firstContent, GenerateContentResponse.FunctionCalls, firstParts])
      rfl rfl).2.2.1⟩


section Lemmas7
variable {α σ : Type}

/-- The iteration of the inner loop on a blocked answer. -/
theorem blocked_iteration (L : Lib α) (a : Agent σ) (tools : List Tool)
    (resp : GenerateContentResponse α)
    (rest : List (Except Error (GenerateContentResponse α)))
    (conv : List (Content α)) (w : σ) (hfc : firstContent resp = none) :
    (innerLoop L a tools (Except.ok resp :: rest) conv w).outcome = Outcome.ended ∧
    (innerLoop L a tools (Except.ok resp :: rest) conv w).conversation = conv ∧
    (innerLoop L a tools (Except.ok resp :: rest) conv w).script = rest ∧
    (innerLoop L a tools (Except.ok resp :: rest) conv w).world = w ∧
    appended (innerLoop L a tools (Except.ok resp :: rest) conv w).trace = [] ∧
    histories (innerLoop L a tools (Except.ok resp :: rest) conv w).trace = [conv] ∧
    handlerCalls (innerLoop L a tools (Except.ok resp :: rest) conv w).trace = [] ∧
    ∀ e ∈ (innerLoop L a tools (Except.ok resp :: rest) conv w).trace,
      e.isFailedCall = false := by
  obtain ⟨g1, g2, g3⟩ := histories_runInference a conv tools (Except.ok resp)
  refine ⟨by simp [innerLoop, hfc], by simp [innerLoop, hfc], by simp [innerLoop, hfc],
    by simp [innerLoop, hfc], ?_, ?_, ?_, ?_⟩
  · cases hp : resp.PromptFeedback <;>
      simp [innerLoop, hfc, hp, appended_append, appended_vlog, g2, appended]
  · cases hp : resp.PromptFeedback <;>
      simp [innerLoop, hfc, hp, histories_append, histories_vlog, g1, histories]
  · cases hp : resp.PromptFeedback <;>
      simp [innerLoop, hfc, hp, handlerCalls_append, handlerCalls_vlog, g3, handlerCalls]
  · intro e he
    simp only [innerLoop, hfc, List.mem_append, List.mem_singleton] at he
    rcases he with ((he | he) | he) | he
    · exact isFailedCall_vlog _ _ e he
    · exact isFailedCall_runInference a conv tools resp e he
    · simp [he, Event.isFailedCall]
    · cases hp : resp.PromptFeedback with
      | none => simp [hp] at he
      | some fb =>
        simp only [hp, List.mem_append, List.mem_singleton] at he
        rcases he with he | he
        · exact isFailedCall_vlog _ _ e he
        · simp [he, Event.isFailedCall]

/-- The iteration of the inner loop on a failed inference call. -/
theorem innerLoop_error (L : Lib α) (a : Agent σ) (tools : List Tool) (err : Error)
    (rest : List (Except Error (GenerateContentResponse α)))
    (conv : List (Content α)) (w : σ) :
    (innerLoop L a tools (Except.error err :: rest) conv w).outcome = Outcome.failed err ∧
    (innerLoop L a tools (Except.error err :: rest) conv w).conversation = conv ∧
    appended (innerLoop L a tools (Except.error err :: rest) conv w).trace = [] ∧
    histories (innerLoop L a tools (Except.error err :: rest) conv w).trace = [conv] ∧
    ∃ pre cfg post, (innerLoop L a tools (Except.error err :: rest) conv w).trace =
        pre ++ Event.generateContent conv cfg (Except.error err) :: post ∧
      (∀ e ∈ pre, e.isOutput = true) ∧ (∀ e ∈ post, e.isOutput = true) := by
  refine ⟨by simp [innerLoop], by simp [innerLoop], ?_, ?_, ?_⟩
  · simp [innerLoop, runInference, appended_append, appended_vlog, appended]
  · simp [innerLoop, runInference, histories_append, histories_vlog, histories]
  · refine ⟨vlog a.verbose
          ("Sending message to Gemini, conversation length: " ++ toString conv.length) ++
        vlog a.verbose ("Making API call to Gemini with model: " ++ "gemini-2.5-flash"),
      (if tools.length > 0 then some { Tools := tools } else none),
      vlog a.verbose ("API call failed: " ++ err) ++
        vlog a.verbose ("Error during inference: " ++ err), ?_, ?_, ?_⟩
    · simp [innerLoop, runInference, List.append_assoc]
    · intro e he
      rcases List.mem_append.mp he with he | he <;> exact isOutput_vlog _ _ e he
    · intro e he
      rcases List.mem_append.mp he with he | he <;> exact isOutput_vlog _ _ e he

theorem isFailedCall_of_isOutput (e : Event α) (h : e.isOutput = true) :
    e.isFailedCall = false := by
  cases e <;> simp_all [Event.isOutput, Event.isFailedCall]

theorem StopsAtFailure.prepend {out : Outcome} {t : List (Event α)} (t0 : List (Event α))
    (h0 : ∀ e ∈ t0, e.isFailedCall = false) (h : StopsAtFailure out t) :
    StopsAtFailure out (t0 ++ t) := by
  rcases h with ⟨h1, h2⟩ | ⟨pre, conv, cfg, err, post, ht, hpre, hpost, hout⟩
  · refine Or.inl ⟨fun e he => ?_, h2⟩
    rcases List.mem_append.mp he with he | he
    · exact h0 e he
    · exact h1 e he
  · refine Or.inr ⟨t0 ++ pre, conv, cfg, err, post, by simp [ht], fun e he => ?_, hpost, hout⟩
    rcases List.mem_append.mp he with he | he
    · exact h0 e he
    · exact hpre e he

theorem StopsAtFailure.append_output {out : Outcome} {t : List (Event α)}
    (t1 : List (Event α)) (h1 : ∀ e ∈ t1, e.isOutput = true) (h : StopsAtFailure out t) :
    StopsAtFailure out (t ++ t1) := by
  rcases h with ⟨h2, h3⟩ | ⟨pre, conv, cfg, err, post, ht, hpre, hpost, hout⟩
  · refine Or.inl ⟨fun e he => ?_, h3⟩
    rcases List.mem_append.mp he with he | he
    · exact h2 e he
    · exact isFailedCall_of_isOutput e (h1 e he)
  · refine Or.inr ⟨pre, conv, cfg, err, post ++ t1, by simp [ht], hpre, fun e he => ?_, hout⟩
    rcases List.mem_append.mp he with he | he
    · exact hpost e he
    · exact h1 e he

/-- A trace that stops at a failure has its failed call at one place only. -/
theorem StopsAtFailure.unique {out : Outcome} {t : List (Event α)} (h : StopsAtFailure out t)
    (pre post : List (Event α)) (conv : List (Content α)) (cfg : Option GenerateContentConfig)
    (err : Error) (ht : t = pre ++ Event.generateContent conv cfg (Except.error err) :: post) :
    out = Outcome.failed err ∧ ∀ e ∈ post, e.isOutput = true := by
  rcases h with ⟨h1, -⟩ | ⟨pre0, conv0, cfg0, err0, post0, ht0, hpre0, hpost0, hout⟩
  · exfalso
    have := h1 (Event.generateContent conv cfg (Except.error err)) (by simp [ht])
    simp [Event.isFailedCall] at this
  · rw [ht] at ht0
    rcases List.append_eq_append_iff.mp ht0 with ⟨a1, hp, hs⟩ | ⟨c1, hp, hs⟩
    · cases a1 with
      | nil =>
        simp only [List.nil_append, List.cons.injEq, Event.generateContent.injEq] at hs
        obtain ⟨⟨-, -, he⟩, hpost⟩ := hs
        cases he
        exact ⟨hout, fun e he => hpost0 e (hpost ▸ he)⟩
      | cons y ys =>
        exfalso
        simp only [List.cons_append, List.cons.injEq] at hs
        have hmem : Event.generateContent conv cfg (Except.error err) ∈ pre0 := by
          rw [hp, ← hs.1]; simp
        have := hpre0 _ hmem
        simp [Event.isFailedCall] at this
    · cases c1 with
      | nil =>
        simp only [List.nil_append, List.cons.injEq, Event.generateContent.injEq] at hs
        obtain ⟨⟨-, -, he⟩, hpost⟩ := hs
        cases he
        exact ⟨hout, fun e he => hpost0 e (hpost ▸ he)⟩
      | cons y ys =>
        exfalso
        simp only [List.cons_append, List.cons.injEq] at hs
        have hmem : Event.generateContent conv cfg (Except.error err) ∈ post0 := by
          rw [hs.2]; simp
        have := hpost0 _ hmem
        simp [Event.isOutput] at this


/-- The inner loop stops at a failing inference call. -/
theorem innerLoop_stops (L : Lib α) (a : Agent σ) (tools : List Tool)
    (script : List (Except Error (GenerateContentResponse α)))
    (conv : List (Content α)) (w : σ) :
    StopsAtFailure (innerLoop L a tools script conv w).outcome
      (innerLoop L a tools script conv w).trace := by
  induction script generalizing conv w with
  | nil => exact Or.inl ⟨by simp [innerLoop], by simp [innerLoop]⟩
  | cons result rest ih =>
    cases result with
    | error err =>
      obtain ⟨o, -, -, -, pre, cfg, post, ht, hpre, hpost⟩ :=
        innerLoop_error L a tools err rest conv w
      exact Or.inr ⟨pre, conv, cfg, err, post, ht,
        fun e he => isFailedCall_of_isOutput e (hpre e he), hpost, o⟩
    | ok resp =>
      cases hc : firstContent resp with
      | none =>
        obtain ⟨o, -, -, -, -, -, -, hall⟩ := blocked_iteration L a tools resp rest conv w hc
        exact Or.inl ⟨hall, by rw [o]; intro err h; cases h⟩
      | some content =>
        by_cases hf : resp.FunctionCalls = []
        · obtain ⟨o, -, -, -, -, -, -, hall⟩ :=
            innerLoop_answer L a tools resp content rest conv w hc hf
          exact Or.inl ⟨hall, by rw [o]; intro err h; cases h⟩
        · obtain ⟨s1, -, -, -, t, s5, -, -, s8⟩ :=
            innerLoop_calls L a tools resp content rest conv w hc hf
          rw [s1, s5]
          exact (ih _ _).prepend t s8

/-- The inner loop only appends to the conversation, and every history it
passes to the service lies between the conversation it started with and the
one it ends with; a later history strictly extends an earlier one. -/
theorem innerLoop_histories (L : Lib α) (a : Agent σ) (tools : List Tool)
    (script : List (Except Error (GenerateContentResponse α)))
    (conv : List (Content α)) (w : σ) :
    (innerLoop L a tools script conv w).conversation =
      conv ++ appended (innerLoop L a tools script conv w).trace ∧
    (∀ h ∈ histories (innerLoop L a tools script conv w).trace,
      conv <+: h ∧ h <+: (innerLoop L a tools script conv w).conversation) ∧
    (histories (innerLoop L a tools script conv w).trace).Pairwise StrictPrefix := by
  induction script generalizing conv w with
  | nil => simp [innerLoop, appended, histories]
  | cons result rest ih =>
    cases result with
    | error err =>
      obtain ⟨-, c, ap, hi, -⟩ := innerLoop_error L a tools err rest conv w
      simp [c, ap, hi]
    | ok resp =>
      cases hc : firstContent resp with
      | none =>
        obtain ⟨-, c, -, -, ap, hi, -, -⟩ := blocked_iteration L a tools resp rest conv w hc
        simp [c, ap, hi]
      | some content =>
        by_cases hf : resp.FunctionCalls = []
        · obtain ⟨-, c, -, -, hi, ap, -, -⟩ :=
            innerLoop_answer L a tools resp content rest conv w hc hf
          simp [c, ap, hi]
        · obtain ⟨-, s2, -, -, t, s5, s6, s7, -⟩ :=
            innerLoop_calls L a tools resp content rest conv w hc hf
          obtain ⟨i1, i2, i3⟩ :=
            ih (conv ++ [content] ++ [(executeTools L a resp.FunctionCalls w).content])
              (executeTools L a resp.FunctionCalls w).world
          have hpre : conv <+: conv ++ [content] ++
              [(executeTools L a resp.FunctionCalls w).content] := by
            rw [List.append_assoc]; exact List.prefix_append _ _
          rw [s2, s5, histories_append, appended_append, s6, s7]
          refine ⟨by rw [i1]; simp, ?_, ?_⟩
          · intro h hh
            simp only [List.singleton_append, List.mem_cons] at hh
            rcases hh with rfl | hh
            · refine ⟨List.prefix_refl _, ?_⟩
              rw [i1, List.append_assoc, List.append_assoc]
              exact List.prefix_append _ _
            · exact ⟨hpre.trans (i2 h hh).1, (i2 h hh).2⟩
          · simp only [List.singleton_append, List.pairwise_cons]
            refine ⟨fun h hh => ⟨hpre.trans (i2 h hh).1, ?_⟩, i3⟩
            have := (i2 h hh).1.length_le
            simp only [List.length_append, List.length_cons, List.length_nil] at this
            omega

/-- One iteration of the outer loop on a non-empty line: the events of the
read and the append of the user turn, the inner loop, and then either the
rest of the outer loop or the end of the run. -/
theorem outerLoop_cons (L : Lib α) (a : Agent σ) (tools : List Tool) (userInput : String)
    (inputs : List String) (script : List (Except Error (GenerateContentResponse α)))
    (conv : List (Content α)) (w : σ) (hx : userInput ≠ "") :
    ∃ t1 : List (Event α), histories t1 = [] ∧ appended t1 = [userTurn userInput] ∧
      (∀ e ∈ t1, e.isFailedCall = false) ∧
      ((innerLoop L a tools script (conv ++ [userTurn userInput]) w).outcome = Outcome.ended →
        outerLoop L a tools (userInput :: inputs) script conv w =
          { outerLoop L a tools inputs
              (innerLoop L a tools script (conv ++ [userTurn userInput]) w).script
              (innerLoop L a tools script (conv ++ [userTurn userInput]) w).conversation
              (innerLoop L a tools script (conv ++ [userTurn userInput]) w).world with
            trace := t1 ++ (innerLoop L a tools script (conv ++ [userTurn userInput]) w).trace ++
              (outerLoop L a tools inputs
                (innerLoop L a tools script (conv ++ [userTurn userInput]) w).script
                (innerLoop L a tools script (conv ++ [userTurn userInput]) w).conversation
                (innerLoop L a tools script (conv ++ [userTurn userInput]) w).world).trace }) ∧
      ((innerLoop L a tools script (conv ++ [userTurn userInput]) w).outcome ≠ Outcome.ended →
        outerLoop L a tools (userInput :: inputs) script conv w =
          { innerLoop L a tools script (conv ++ [userTurn userInput]) w with
            trace := t1 ++
              (innerLoop L a tools script (conv ++ [userTurn userInput]) w).trace }) := by
  refine ⟨[Event.stdout prompt, Event.getUserMessage userInput true] ++
      vlog a.verbose ("User input received: " ++ Quote L.isPrintTable userInput) ++
      [Event.append (userTurn userInput)], ?_, ?_, ?_, ?_, ?_⟩
  · simp [histories_append, histories_vlog, histories]
  · simp [appended_append, appended_vlog, appended]
  · intro e he
    simp only [List.mem_append, List.mem_singleton, List.mem_cons, List.mem_nil_iff,
      or_false] at he
    rcases he with ((he | he) | he) | he
    · simp [he, Event.isFailedCall]
    · simp [he, Event.isFailedCall]
    · exact isFailedCall_vlog _ _ e he
    · simp [he, Event.isFailedCall]
  · intro hout
    simp only [outerLoop, hx, if_false]
    unfold userTurn at hout ⊢
    simp only [hout]
  · intro hout
    simp only [outerLoop, hx, if_false]
    unfold userTurn at hout ⊢
    split
    · rename_i h; exact absurd h hout
    · rfl


/-- The outer loop stops at a failing inference call. -/
theorem outerLoop_stops (L : Lib α) (a : Agent σ) (tools : List Tool) (inputs : List String)
    (script : List (Except Error (GenerateContentResponse α)))
    (conv : List (Content α)) (w : σ) :
    StopsAtFailure (outerLoop L a tools inputs script conv w).outcome
      (outerLoop L a tools inputs script conv w).trace := by
  induction inputs generalizing script conv w with
  | nil =>
    refine Or.inl ⟨fun e he => ?_, by simp [outerLoop]⟩
    simp only [outerLoop, List.mem_append, List.mem_cons, List.mem_nil_iff, or_false] at he
    rcases he with (he | he) | he
    · simp [he, Event.isFailedCall]
    · simp [he, Event.isFailedCall]
    · exact isFailedCall_vlog _ _ e he
  | cons x inputs ih =>
    by_cases hx : x = ""
    · have ht : (outerLoop L a tools (x :: inputs) script conv w).trace =
          ([Event.stdout prompt, Event.getUserMessage x true] ++
            vlog a.verbose "Skipping empty message\n") ++
          (outerLoop L a tools inputs script conv w).trace := by
        simp [outerLoop, hx]
      have ho : (outerLoop L a tools (x :: inputs) script conv w).outcome =
          (outerLoop L a tools inputs script conv w).outcome := by
        simp [outerLoop, hx]
      rw [ht, ho]
      refine (ih script conv w).prepend _ (fun e he => ?_)
      simp only [List.mem_append, List.mem_cons, List.mem_nil_iff, or_false] at he
      rcases he with (he | he) | he
      · simp [he, Event.isFailedCall]
      · simp [he, Event.isFailedCall]
      · exact isFailedCall_vlog _ _ e he
    · obtain ⟨t1, -, -, h3, hended, hstop⟩ := outerLoop_cons L a tools x inputs script conv w hx
      have hin := innerLoop_stops L a tools script (conv ++ [userTurn x]) w
      by_cases hout : (innerLoop L a tools script (conv ++ [userTurn x]) w).outcome =
          Outcome.ended
      · rw [hended hout]
        have hclean : ∀ e ∈ (innerLoop L a tools script (conv ++ [userTurn x]) w).trace,
            e.isFailedCall = false := by
          rcases hin with ⟨h1, -⟩ | ⟨_, _, _, err, _, -, -, -, hf⟩
          · exact h1
          · rw [hout] at hf; cases hf
        refine (ih _ _ _).prepend _ (fun e he => ?_)
        rcases List.mem_append.mp he with he | he
        · exact h3 e he
        · exact hclean e he
      · rw [hstop hout]
        exact hin.prepend t1 h3

/-- The outer loop only appends to the conversation; every history it passes
to the service strictly extends the conversation it started with and is a
prefix of the one it ends with; a later history strictly extends an earlier
one. -/
theorem outerLoop_histories (L : Lib α) (a : Agent σ) (tools : List Tool)
    (inputs : List String) (script : List (Except Error (GenerateContentResponse α)))
    (conv : List (Content α)) (w : σ) :
    (outerLoop L a tools inputs script conv w).conversation =
      conv ++ appended (outerLoop L a tools inputs script conv w).trace ∧
    (∀ h ∈ histories (outerLoop L a tools inputs script conv w).trace,
      StrictPrefix conv h ∧ h <+: (outerLoop L a tools inputs script conv w).conversation) ∧
    (histories (outerLoop L a tools inputs script conv w).trace).Pairwise StrictPrefix := by
  induction inputs generalizing script conv w with
  | nil =>
    simp [outerLoop, appended_append, appended_vlog, appended, histories_append,
      histories_vlog, histories]
  | cons x inputs ih =>
    by_cases hx : x = ""
    · obtain ⟨i1, i2, i3⟩ := ih script conv w
      have ht : (outerLoop L a tools (x :: inputs) script conv w).trace =
          ([Event.stdout prompt, Event.getUserMessage x true] ++
            vlog a.verbose "Skipping empty message\n") ++
          (outerLoop L a tools inputs script conv w).trace := by
        simp [outerLoop, hx]
      have hc : (outerLoop L a tools (x :: inputs) script conv w).conversation =
          (outerLoop L a tools inputs script conv w).conversation := by
        simp [outerLoop, hx]
      rw [ht, hc, histories_append, appended_append]
      simpa [histories_append, histories_vlog, histories, appended_append, appended_vlog,
        appended] using ⟨i1, i2, i3⟩
    · obtain ⟨t1, h1, h2, -, hended, hstop⟩ := outerLoop_cons L a tools x inputs script conv w hx
      obtain ⟨n1, n2, n3⟩ := innerLoop_histories L a tools script (conv ++ [userTurn x]) w
      have hstrict : ∀ h, conv ++ [userTurn x] <+: h → StrictPrefix conv h := by
        intro h hh
        refine ⟨(List.prefix_append _ _).trans hh, ?_⟩
        have := hh.length_le
        simp only [List.length_append, List.length_cons, List.length_nil] at this
        omega
      by_cases hout : (innerLoop L a tools script (conv ++ [userTurn x]) w).outcome =
          Outcome.ended
      · obtain ⟨i1, i2, i3⟩ := ih
          (innerLoop L a tools script (conv ++ [userTurn x]) w).script
          (innerLoop L a tools script (conv ++ [userTurn x]) w).conversation
          (innerLoop L a tools script (conv ++ [userTurn x]) w).world
        rw [hended hout]
        simp only [histories_append, appended_append, h1, h2, List.nil_append]
        refine ⟨?_, ?_, ?_⟩
        · rw [i1, n1]; simp
        · intro h hh
          rcases List.mem_append.mp hh with hh | hh
          · refine ⟨hstrict h (n2 h hh).1, (n2 h hh).2.trans ?_⟩
            rw [i1]; exact List.prefix_append _ _
          · refine ⟨?_, (i2 h hh).2⟩
            have hc : conv ++ [userTurn x] <+: h := by
              refine List.IsPrefix.trans ?_ (i2 h hh).1.1
              rw [n1]; exact List.prefix_append _ _
            exact hstrict h hc
        · rw [List.pairwise_append]
          refine ⟨n3, i3, fun h1 hh1 h2 hh2 => ?_⟩
          have p1 := (n2 h1 hh1).2
          have p2 := (i2 h2 hh2).1
          exact ⟨p1.trans p2.1, lt_of_le_of_lt p1.length_le p2.2⟩
      · rw [hstop hout]
        simp only [histories_append, appended_append, h1, h2, List.nil_append]
        refine ⟨by rw [n1]; simp, fun h hh => ⟨hstrict h (n2 h hh).1, (n2 h hh).2⟩, n3⟩

/-- The first turn the outer loop appends is a user turn. -/
theorem outerLoop_first_append (L : Lib α) (a : Agent σ) (tools : List Tool)
    (inputs : List String) (script : List (Except Error (GenerateContentResponse α)))
    (conv : List (Content α)) (w : σ) :
    StartsWithUser (appended (outerLoop L a tools inputs script conv w).trace) := by
  induction inputs generalizing script conv w with
  | nil =>
    intro turn h
    simp [outerLoop, appended_append, appended_vlog, appended] at h
  | cons x inputs ih =>
    by_cases hx : x = ""
    · have ht : (outerLoop L a tools (x :: inputs) script conv w).trace =
          ([Event.stdout prompt, Event.getUserMessage x true] ++
            vlog a.verbose "Skipping empty message\n") ++
          (outerLoop L a tools inputs script conv w).trace := by
        simp [outerLoop, hx]
      rw [ht, appended_append]
      simpa [appended_append, appended_vlog, appended] using ih script conv w
    · obtain ⟨t1, -, h2, -, hended, hstop⟩ := outerLoop_cons L a tools x inputs script conv w hx
      by_cases hout : (innerLoop L a tools script (conv ++ [userTurn x]) w).outcome =
          Outcome.ended
      · rw [hended hout]
        intro turn h
        simp only [appended_append, h2, List.singleton_append, List.cons_append,
          List.head?_cons, Option.some.injEq] at h
        rw [← h]
        simp [userTurn, NewContentFromParts, RoleUser]
      · rw [hstop hout]
        intro turn h
        simp only [appended_append, h2, List.singleton_append, List.head?_cons,
          Option.some.injEq] at h
        rw [← h]
        simp [userTurn, NewContentFromParts, RoleUser]

/-- On empty lines only, the outer loop reads to the end of the input and
does nothing else. -/
theorem outerLoop_empty_lines (L : Lib α) (a : Agent σ) (tools : List Tool)
    (inputs : List String) (script : List (Except Error (GenerateContentResponse α)))
    (conv : List (Content α)) (w : σ) (h : ∀ line ∈ inputs, line = "") :
    (outerLoop L a tools inputs script conv w).outcome = Outcome.ended ∧
    (outerLoop L a tools inputs script conv w).conversation = conv ∧
    (outerLoop L a tools inputs script conv w).script = script ∧
    (outerLoop L a tools inputs script conv w).world = w ∧
    histories (outerLoop L a tools inputs script conv w).trace = [] ∧
    appended (outerLoop L a tools inputs script conv w).trace = [] ∧
    handlerCalls (outerLoop L a tools inputs script conv w).trace = [] := by
  induction inputs with
  | nil =>
    simp [outerLoop, histories_append, histories_vlog, histories, appended_append,
      appended_vlog, appended, handlerCalls_append, handlerCalls_vlog, handlerCalls]
  | cons x inputs ih =>
    have hx : x = "" := h x (List.mem_cons_self _ _)
    obtain ⟨i1, i2, i3, i4, i5, i6, i7⟩ := ih (fun l hl => h l (List.mem_cons_of_mem _ hl))
    simp [outerLoop, hx, i1, i2, i3, i4, i5, i6, i7, histories_append, histories_vlog,
      histories, appended_append, appended_vlog, appended, handlerCalls_append,
      handlerCalls_vlog, handlerCalls]

theorem observations_of_output (t : List (Event α)) (h : ∀ e ∈ t, e.isOutput = true) :
    histories t = [] ∧ appended t = [] ∧ handlerCalls t = [] := by
  induction t with
  | nil => exact ⟨rfl, rfl, rfl⟩
  | cons e es ih =>
    obtain ⟨i1, i2, i3⟩ := ih (fun x hx => h x (List.mem_cons_of_mem _ hx))
    have he := h e (List.mem_cons_self _ _)
    cases e <;> simp_all [Event.isOutput, histories, appended, handlerCalls]

/-- The trace of `Run`: the greeting, the outer loop, the closing log call. -/
theorem Run_trace (L : Lib α) (a : Agent σ) (inputs : List String)
    (script : List (Except Error (GenerateContentResponse α))) (w : σ) :
    ∃ t0 t1 : List (Event α), (∀ e ∈ t0, e.isOutput = true) ∧ (∀ e ∈ t1, e.isOutput = true) ∧
      (Run L a inputs script w).trace =
        t0 ++ (outerLoop L a (availableTools a) inputs script [] w).trace ++ t1 := by
  refine ⟨vlog a.verbose "Starting chat session\n" ++
      [Event.stdout "Chat with Gemini (use 'ctrl-c' to quit)\n"],
    (match (outerLoop L a (availableTools a) inputs script [] w).outcome with
     | Outcome.ended => vlog a.verbose "Chat session ended\n"
     | _ => []), ?_, ?_, rfl⟩
  · intro e he
    rcases List.mem_append.mp he with he | he
    · exact isOutput_vlog _ _ e he
    · simp only [List.mem_singleton] at he
      simp [he, Event.isOutput]
  · intro e he
    split at he
    · exact isOutput_vlog _ _ e he
    · simp at he

theorem Run_fields (L : Lib α) (a : Agent σ) (inputs : List String)
    (script : List (Except Error (GenerateContentResponse α))) (w : σ) :
    (Run L a inputs script w).outcome =
      (outerLoop L a (availableTools a) inputs script [] w).outcome ∧
    (Run L a inputs script w).conversation =
      (outerLoop L a (availableTools a) inputs script [] w).conversation ∧
    (Run L a inputs script w).script =
      (outerLoop L a (availableTools a) inputs script [] w).script ∧
    (Run L a inputs script w).world =
      (outerLoop L a (availableTools a) inputs script [] w).world ∧
    histories (Run L a inputs script w).trace =
      histories (outerLoop L a (availableTools a) inputs script [] w).trace ∧
    appended (Run L a inputs script w).trace =
      appended (outerLoop L a (availableTools a) inputs script [] w).trace ∧
    handlerCalls (Run L a inputs script w).trace =
      handlerCalls (outerLoop L a (availableTools a) inputs script [] w).trace := by
  obtain ⟨t0, t1, h0, h1, ht⟩ := Run_trace L a inputs script w
  obtain ⟨a1, a2, a3⟩ := observations_of_output t0 h0
  obtain ⟨b1, b2, b3⟩ := observations_of_output t1 h1
  refine ⟨rfl, rfl, rfl, rfl, ?_, ?_, ?_⟩
  · rw [ht]; simp [histories_append, a1, b1]
  · rw [ht]; simp [appended_append, a2, b2]
  · rw [ht]; simp [handlerCalls_append, a3, b3]

end Lemmas7

/-- C6: when the answer to an inference call is blocked (no candidates, or a
first candidate without content), the inner loop of `Run` ends there: the
conversation is the one that was passed to that call, no turn is appended,
no further answer of the service is consumed, no further inference call is
made and no tool runs. -/
theorem innerLoop_blocked {α σ : Type} (L : Lib α) (a : Agent σ) (tools : List Tool)
    (resp : GenerateContentResponse α)
    (rest : List (Except Error (GenerateContentResponse α)))
    (conversation : List (Content α)) (w : σ)
    (h : resp.Candidates = [] ∨ ∃ c cs, resp.Candidates = c :: cs ∧ c.Content = none) :
    (innerLoop L a tools (Except.ok resp :: rest) conversation w).outcome = Outcome.ended ∧
    (innerLoop L a tools (Except.ok resp :: rest) conversation w).conversation = conversation ∧
    (innerLoop L a tools (Except.ok resp :: rest) conversation w).script = rest ∧
    (innerLoop L a tools (Except.ok resp :: rest) conversation w).world = w ∧
    appended (innerLoop L a tools (Except.ok resp :: rest) conversation w).trace = [] ∧
    histories (innerLoop L a tools (Except.ok resp :: rest) conversation w).trace =
      [conversation] ∧
    handlerCalls (innerLoop L a tools (Except.ok resp :: rest) conversation w).trace = [] := by
  have hfc : firstContent resp = none := by
    rcases h with h | ⟨c, cs, h, hc⟩
    · simp [firstContent, h]
    · simp [firstContent, h, hc]
  obtain ⟨b1, b2, b3, b4, b5, b6, b7, -⟩ :=
    blocked_iteration L a tools resp rest conversation w hfc
  exact ⟨b1, b2, b3, b4, b5, b6, b7⟩

/-- C6 at a concrete response: no candidates, block reason `SAFETY`. -/
theorem innerLoop_blocked_witness :
    blockedResponse.Candidates = [] ∧
    (innerLoop exampleLib exampleAgent [] [Except.ok blockedResponse]
      [NewContentFromParts [NewPartFromText "hi"] RoleUser] 0).conversation =
      [NewContentFromParts [NewPartFromText "hi"] RoleUser] :=
  ⟨rfl, (innerLoop_blocked exampleLib exampleAgent [] blockedResponse []
    [NewContentFromParts [NewPartFromText "hi"] RoleUser] 0 (Or.inl rfl)).2.1⟩

/-- C3 as stated fails: on the line consisting of one blank, `Run` calls the
inference service and the conversation ends with two turns. -/
theorem Run_blank_line_is_sent :
    " ".data.all Char.isWhitespace = true ∧
    (histories (Run exampleLib exampleAgent [" "] [Except.ok (answerResponse "hello")]
      0).trace).length = 1 ∧
    (Run exampleLib exampleAgent [" "] [Except.ok (answerResponse "hello")]
      0).conversation.length = 2 := by
  decide

/-- C3 (as amended): for every sequence of user input lines that are all
empty (the empty string; a line is not trimmed), followed by the end of
input, `Run` returns `nil`, makes no call to the inference service, calls no
tool handler, appends no turn, and ends with the empty conversation. -/
theorem Run_empty_lines {α σ : Type} (L : Lib α) (a : Agent σ) (inputs : List String)
    (script : List (Except Error (GenerateContentResponse α))) (w : σ)
    (h : ∀ line ∈ inputs, line = "") :
    (Run L a inputs script w).outcome = Outcome.ended ∧
    histories (Run L a inputs script w).trace = [] ∧
    (Run L a inputs script w).script = script ∧
    handlerCalls (Run L a inputs script w).trace = [] ∧
    appended (Run L a inputs script w).trace = [] ∧
    (Run L a inputs script w).conversation = [] ∧
    (Run L a inputs script w).world = w := by
  obtain ⟨r1, r2, r3, r4, r5, r6, r7⟩ := Run_fields L a inputs script w
  obtain ⟨o1, o2, o3, o4, o5, o6, o7⟩ :=
    outerLoop_empty_lines L a (availableTools a) inputs script [] w h
  exact ⟨r1.trans o1, r5.trans o5, r3.trans o3, r7.trans o7, r6.trans o6, r2.trans o2,
    r4.trans o4⟩

/-- C3 at a concrete input: two empty lines. -/
theorem Run_empty_lines_witness :
    (∀ line ∈ ["", ""], line = "") ∧
    histories (Run exampleLib exampleAgent ["", ""] [Except.ok (answerResponse "hello")]
      0).trace = [] ∧
    (Run exampleLib exampleAgent ["", ""] [Except.ok (answerResponse "hello")]
      0).conversation = [] :=
  ⟨by simp,
   (Run_empty_lines exampleLib exampleAgent ["", ""] [Except.ok (answerResponse "hello")] 0
      (by simp)).2.1,
   (Run_empty_lines exampleLib exampleAgent ["", ""] [Except.ok (answerResponse "hello")] 0
      (by simp)).2.2.2.2.2.1⟩

/-- C7: if a call to the inference service returns an error, `Run` returns
that error, and every event after the failing call is a print or a log call:
no further inference call, no call of a tool handler, no read of user input
and no append to the conversation. -/
theorem Run_stops_at_inference_error {α σ : Type} (L : Lib α) (a : Agent σ)
    (inputs : List String) (script : List (Except Error (GenerateContentResponse α))) (w : σ)
    (pre post : List (Event α)) (conversation : List (Content α))
    (config : Option GenerateContentConfig) (err : Error)
    (h : (Run L a inputs script w).trace =
      pre ++ Event.generateContent conversation config (Except.error err) :: post) :
    (Run L a inputs script w).outcome = Outcome.failed err ∧
    ∀ e ∈ post, e.isOutput = true := by
  obtain ⟨t0, t1, h0, h1, ht⟩ := Run_trace L a inputs script w
  have hs : StopsAtFailure (Run L a inputs script w).outcome (Run L a inputs script w).trace := by
    rw [ht]
    exact ((outerLoop_stops L a (availableTools a) inputs script [] w).prepend t0
      (fun e he => isFailedCall_of_isOutput e (h0 e he))).append_output t1 h1
  exact hs.unique pre post conversation config err h

/-- C10: over a whole run the histories passed to the inference service grow
strictly: of two calls, the history of the earlier one is a strict prefix of
the history of the later one; every such history is a prefix of the final
conversation and starts with a turn of role `user`, and so does the final
conversation when it is not empty. -/
theorem Run_histories_grow {α σ : Type} (L : Lib α) (a : Agent σ) (inputs : List String)
    (script : List (Except Error (GenerateContentResponse α))) (w : σ) :
    (histories (Run L a inputs script w).trace).Pairwise
      (fun h1 h2 => h1 <+: h2 ∧ h1.length < h2.length) ∧
    (∀ h ∈ histories (Run L a inputs script w).trace,
      h <+: (Run L a inputs script w).conversation ∧
      ∃ turn, h.head? = some turn ∧ turn.Role = "user") ∧
    (∀ turn, (Run L a inputs script w).conversation.head? = some turn → turn.Role = "user") ∧
    (Run L a inputs script w).conversation = appended (Run L a inputs script w).trace := by
  obtain ⟨-, r2, -, -, r5, r6, -⟩ := Run_fields L a inputs script w
  obtain ⟨o1, o2, o3⟩ := outerLoop_histories L a (availableTools a) inputs script [] w
  have hfirst := outerLoop_first_append L a (availableTools a) inputs script [] w
  rw [List.nil_append] at o1
  rw [r2, r5, r6]
  refine ⟨o3, fun h hh => ⟨(o2 h hh).2, ?_⟩, fun turn ht => hfirst turn (o1 ▸ ht), o1⟩
  obtain ⟨⟨-, hlen⟩, hpre⟩ := o2 h hh
  cases h with
  | nil => simp at hlen
  | cons turn rest =>
    refine ⟨turn, rfl, hfirst turn ?_⟩
    obtain ⟨tail, htail⟩ := hpre
    rw [← o1, ← htail]
    rfl

/-- C7 at a concrete run: the first inference call fails with `boom`. -/
theorem Run_stops_at_inference_error_witness :
    (Run exampleLib exampleAgent ["hi", "again"] [Except.error "boom"] 0).trace =
      [Event.stdout "Chat with Gemini (use 'ctrl-c' to quit)\n", Event.stdout prompt,
        Event.getUserMessage "hi" true, Event.append (userTurn "hi")] ++
      Event.generateContent [userTurn "hi"]
        (some { Tools := availableTools exampleAgent }) (Except.error "boom") :: [] ∧
    (Run exampleLib exampleAgent ["hi", "again"] [Except.error "boom"] 0).outcome =
      Outcome.failed "boom" :=
  ⟨rfl, (Run_stops_at_inference_error exampleLib exampleAgent ["hi", "again"]
    [Except.error "boom"] 0
    [Event.stdout "Chat with Gemini (use 'ctrl-c' to quit)\n", Event.stdout prompt,
      Event.getUserMessage "hi" true, Event.append (userTurn "hi")] []
    [userTurn "hi"] (some { Tools := availableTools exampleAgent }) "boom" rfl).1⟩

/-- C10 at a concrete run: one tool round trip, then a second user turn. -/
theorem Run_histories_grow_witness :
    (Run exampleLib exampleAgent ["hi", "again"]
      [Except.ok (callResponse "echo" "1"), Except.ok (answerResponse "done"),
        Except.ok (answerResponse "bye")] 0).conversation =
    appended (Run exampleLib exampleAgent ["hi", "again"]
      [Except.ok (callResponse "echo" "1"), Except.ok (answerResponse "done"),
        Except.ok (answerResponse "bye")] 0).trace :=
  (Run_histories_grow exampleLib exampleAgent ["hi", "again"]
    [Except.ok (callResponse "echo" "1"), Except.ok (answerResponse "done"),
      Except.ok (answerResponse "bye")] 0).2.2.2

end AgenticAI
